import Mathlib

/-!
Verification of `caserec/recommenders/item_recommendation/base_item_recommendation.py`
(class `BaseItemRecommendation`) from the CaseRecommender repository, as a shallow
embedding in Lean 4.

Modelling conventions:

* Python dictionaries are modelled as insertion-ordered association lists (`Dict`),
  with `dinsert` giving the semantics of `d.update({k: v})` (overwrite the value of
  an existing key in place, otherwise append) and `dget` the semantics of `d[k]`
  (`none` plays the role of a raised `KeyError`).
* `numpy` floating-point scalars are modelled by `FVal`: an exact rational, `nan`,
  or a signed infinity, with IEEE-754 behaviour for the operations the code uses
  (subtraction, division, maximum, `isnan`); rounding (the `np.float32` cast) is
  not modelled, so all arithmetic is exact.
* The external reading collaborators `ReadFile` / `ReadDataframe` live in
  `caserec/utils/process_data.py`, which is outside the verified sources; they are
  modelled from the specification (see `readInteractions`).
* `scipy.spatial.distance.pdist` accepts a metric by name or as a callable; it is
  modelled as an arbitrary function `Metric` on the row vectors, and
  `squareform(pdist(X, metric))` as the matrix that is `0` on the diagonal and
  `metric (X i) (X j)` (computed once, for the pair ordered `i < j`) off it.
-/

namespace CaseRec


/-- A Python `dict`, as an insertion-ordered association list. -/
abbrev Dict (K V : Type) := List (K × V)

/-- Python `d[k]`: the value stored for the key `k`, or `none` (a `KeyError`). -/
def dget {K V : Type} [DecidableEq K] : Dict K V → K → Option V
  | [], _ => none
  | p :: ps, k => if p.1 = k then some p.2 else dget ps k

/-- Python `d.update({k: v})`: overwrite the value of an existing key in place,
otherwise append the new binding at the end. -/
def dinsert {K V : Type} [DecidableEq K] (d : Dict K V) (k : K) (v : V) : Dict K V :=
  if d.any (fun p => decide (p.1 = k)) then
    d.map (fun p => if p.1 = k then (k, v) else p)
  else d ++ [(k, v)]

/-- A `numpy` floating-point scalar: an exact rational, `nan`, or a signed infinity. -/
inductive FVal where
  | nan : FVal
  | inf : FVal
  | ninf : FVal
  | val : ℚ → FVal
deriving DecidableEq

namespace FVal

/-- Python `np.isnan` on one scalar. -/
def isNan : FVal → Bool
  | nan => true
  | _ => false

/-- IEEE-754 subtraction (exact, no rounding). -/
def sub : FVal → FVal → FVal
  | nan, _ => nan
  | _, nan => nan
  | inf, inf => nan
  | inf, _ => inf
  | ninf, ninf => nan
  | ninf, _ => ninf
  | val _, inf => ninf
  | val _, ninf => inf
  | val a, val b => val (a - b)

/-- IEEE-754 division (exact, no rounding; the single model zero behaves as `+0.0`). -/
def div : FVal → FVal → FVal
  | nan, _ => nan
  | _, nan => nan
  | inf, inf => nan
  | inf, ninf => nan
  | ninf, inf => nan
  | ninf, ninf => nan
  | inf, val b => if b < 0 then ninf else inf
  | ninf, val b => if b < 0 then inf else ninf
  | val _, inf => val 0
  | val _, ninf => val 0
  | val a, val b =>
    if b = 0 then (if a = 0 then nan else if 0 < a then inf else ninf)
    else val (a / b)

/-- Python `np.maximum` on two scalars: `nan` propagates. -/
def fmax : FVal → FVal → FVal
  | nan, _ => nan
  | _, nan => nan
  | inf, _ => inf
  | _, inf => inf
  | ninf, x => x
  | x, ninf => x
  | val a, val b => val (max a b)

/-- Python `ndarray.max()`: reduce a (flattened, nonempty) array with `np.maximum`. -/
def listMax : List FVal → FVal
  | [] => nan
  | x :: xs => xs.foldl fmax x

end FVal

/-- The in-memory interaction structure reported by the reading collaborator
(`train_set` / `test_set`): the list of distinct users, the list of distinct items,
and the per-user mapping `item → feedback value` (a Python dict per user). The fields
`number_interactions` and `sparsity` are only used for console diagnostics and are
not modelled. -/
structure DataSet (α β : Type) where
  users : List α
  items : List β
  feedback : α → Dict β ℚ

/-- The error taxonomy of the specification (§7). -/
inductive PipelineError where
  | missingDataError : PipelineError
  | unmappedEntityError : PipelineError
  | dataLoadError : PipelineError
  | emptyMatrixError : PipelineError
  | unknownMetricError : PipelineError
deriving DecidableEq

/-- The mutable fields of a `BaseItemRecommendation` instance that the verified
methods read or write (the four identifier dictionaries, the entity universes,
and the ranking container). -/
structure RState (α β : Type) where
  item_to_item_id : Dict β ℕ
  item_id_to_item : Dict ℕ β
  user_to_user_id : Dict α ℕ
  user_id_to_user : Dict ℕ α
  users : List α
  items : List β
  ranking : List (α × β × ℚ)
deriving DecidableEq

/-- A freshly constructed instance: all dictionaries and containers empty
(`__init__`). -/
def freshState {α β : Type} : RState α β :=
  { item_to_item_id := [], item_id_to_item := [], user_to_user_id := [],
    user_id_to_user := [], users := [], items := [], ranking := [] }

/-- The loop `for i, x in enumerate(xs): fwd.update({x: i}); rev.update({i: x})`,
started at index `i`. -/
def buildMaps {K : Type} [DecidableEq K] (fwd : Dict K ℕ) (rev : Dict ℕ K) (i : ℕ) :
    List K → Dict K ℕ × Dict ℕ K
  | [] => (fwd, rev)
  | x :: xs => buildMaps (dinsert fwd x i) (dinsert rev i x) (i + 1) xs

/-- Python `sorted(set(l1 + l2))`. -/
def sortUnion {α : Type} [LinearOrder α] (l1 l2 : List α) : List α :=
  List.insertionSort (· ≤ ·) (l1 ++ l2).dedup

/-- The user universe `read_data` installs:
`sorted(set(train users + test users))` when a test source is configured, the
reader-reported train list otherwise. -/
def universeUsers {α β : Type} [LinearOrder α] (train : DataSet α β)
    (test : Option (DataSet α β)) : List α :=
  match test with
  | some t => sortUnion train.users t.users
  | none => train.users

/-- The item universe `read_data` installs. -/
def universeItems {α β : Type} [LinearOrder β] (train : DataSet α β)
    (test : Option (DataSet α β)) : List β :=
  match test with
  | some t => sortUnion train.items t.items
  | none => train.items

/-- Method `BaseItemRecommendation.read_data`, after the reading collaborator has produced
the train structure and (when a test source is configured) the test structure:
choose the entity universes and run the two `enumerate` loops that `update` the
four identifier dictionaries of the instance. -/
def read_data_sets {α β : Type} [LinearOrder α] [LinearOrder β] (s : RState α β)
    (train : DataSet α β) (test : Option (DataSet α β)) : RState α β :=
  { s with
    users := universeUsers train test
    items := universeItems train test
    item_to_item_id :=
      (buildMaps s.item_to_item_id s.item_id_to_item 0 (universeItems train test)).1
    item_id_to_item :=
      (buildMaps s.item_to_item_id s.item_id_to_item 0 (universeItems train test)).2
    user_to_user_id :=
      (buildMaps s.user_to_user_id s.user_id_to_user 0 (universeUsers train test)).1
    user_id_to_user :=
      (buildMaps s.user_to_user_id s.user_id_to_user 0 (universeUsers train test)).2 }

/-- Modelled from the spec: the reading collaborators `ReadFile` / `ReadDataframe`
(`caserec/utils/process_data.py`, not part of the verified sources). Given the raw
`(user, item, feedback_value)` records they report the list of distinct users, the
list of distinct items (both sorted by the natural ordering of the entities, which is how
the train-only universe of §4.1 comes out sorted), and the per-user `item → value`
dictionary (duplicate `(user, item)` records overwrite: last write wins, §3); they
fail with `MissingDataError` when the train entity universe is empty (§4.1, §7). -/
def readInteractions {α β : Type} [LinearOrder α] [LinearOrder β]
    (recs : List (α × β × ℚ)) : Except PipelineError (DataSet α β) :=
  let users := List.insertionSort (· ≤ ·) (recs.map (fun r => r.1)).dedup
  let items := List.insertionSort (· ≤ ·) (recs.map (fun r => r.2.1)).dedup
  if users.isEmpty then .error .missingDataError
  else .ok { users := users, items := items,
             feedback := fun u =>
               (recs.filter (fun r => decide (r.1 = u))).foldl
                 (fun d r => dinsert d r.2.1 r.2.2) [] }

/-- Method `read_data` end to end: read the train source, read the test source when one is
configured, then build universes and identifier maps (`read_data_sets`). -/
def read_data {α β : Type} [LinearOrder α] [LinearOrder β] (s : RState α β)
    (trainRecs : List (α × β × ℚ)) (testRecs : Option (List (α × β × ℚ))) :
    Except PipelineError (RState α β) := do
  let train ← readInteractions trainRecs
  match testRecs with
  | none => return read_data_sets s train none
  | some r => do
    let test ← readInteractions r
    return read_data_sets s train (some test)

/-- The part of `BaseItemRecommendation.compute` that this core owns: run
`read_data`, then reset the ranking container to `[]` before any delegation to a
concrete algorithm (the console printing is not modelled). -/
def compute_model {α β : Type} [LinearOrder α] [LinearOrder β] (s : RState α β)
    (trainRecs : List (α × β × ℚ)) (testRecs : Option (List (α × β × ℚ))) :
    Except PipelineError (RState α β) := do
  let s1 ← read_data s trainRecs testRecs
  return { s1 with ranking := [] }

/-- A dense numeric matrix (`np.zeros((rows, cols))` plus cell assignments): the
shape and a total entry function (only indices below the shape are meaningful). -/
structure FMatrix where
  rows : ℕ
  cols : ℕ
  entry : ℕ → ℕ → ℚ

/-- Assignment `matrix[r][c] = v`. -/
def setCell (M : FMatrix) (r c : ℕ) (v : ℚ) : FMatrix :=
  { M with entry := fun r1 c1 => if r1 = r ∧ c1 = c then v else M.entry r1 c1 }

/-- The sum of all entries of the matrix. -/
def sumMat (M : FMatrix) : ℚ :=
  ∑ r ∈ Finset.range M.rows, ∑ c ∈ Finset.range M.cols, M.entry r c

/-- The nested population loop of `create_matrix` flattened:
`[(user, item, value) for user in train.users for (item, value) in feedback[user]]`,
in loop order. -/
def triples {α β : Type} (train : DataSet α β) : List (α × β × ℚ) :=
  train.users.flatMap fun u => (train.feedback u).map fun p => (u, p.1, p.2)

/-- The `BaseItemRecommendation.create_matrix` population loop over the (already
index-resolved) triples: assign each cell in order. -/
def applyCells : List (ℕ × ℕ × ℚ) → FMatrix → FMatrix
  | [], M => M
  | t :: ts, M => applyCells ts (setCell M t.1 t.2.1 t.2.2)

/-- The population loop of `create_matrix` as the source runs it: look each user and
item up in the identifier dictionaries (`KeyError` on a missing entity — the
name the specification gives it is `UnmappedEntityError`) and assign the cell. -/
def fillCells {α β : Type} [DecidableEq α] [DecidableEq β] (du : Dict α ℕ)
    (di : Dict β ℕ) : List (α × β × ℚ) → FMatrix → Except PipelineError FMatrix
  | [], M => .ok M
  | t :: ts, M =>
    match dget du t.1, dget di t.2.1 with
    | some r, some c => fillCells du di ts (setCell M r c t.2.2)
    | _, _ => .error .unmappedEntityError

/-- Method `BaseItemRecommendation.create_matrix`: allocate
`np.zeros((len(self.users), len(self.items)))` and populate
`matrix[user_to_user_id[user]][item_to_item_id[item]] = feedback[user][item]`. -/
def create_matrix {α β : Type} [DecidableEq α] [DecidableEq β] (s : RState α β)
    (train : DataSet α β) : Except PipelineError FMatrix :=
  fillCells s.user_to_user_id s.item_to_item_id (triples train)
    { rows := s.users.length, cols := s.items.length, entry := fun _ _ => 0 }

/-- A distance metric as `scipy.spatial.distance.pdist` consumes it: a (named or
callable) function on two data vectors, possibly undefined (`nan`) on some pairs. -/
abbrev Metric := List ℚ → List ℚ → FVal

/-- Row `i` of the matrix as the vector `pdist` sees. -/
def rowVec (M : FMatrix) (i : ℕ) : List ℚ :=
  (List.range M.cols).map fun j => M.entry i j

/-- Column `j` of the matrix (row `j` of `matrix.T`). -/
def colVec (M : FMatrix) (j : ℕ) : List ℚ :=
  (List.range M.rows).map fun i => M.entry i j

/-- The side length of the similarity matrix: number of rows, or of columns when
`transpose` is set. -/
def simDim (M : FMatrix) (transpose : Bool) : ℕ :=
  if transpose then M.cols else M.rows

/-- The vectors handed to `pdist`: the rows of `matrix`, or of `matrix.T`. -/
def simVec (M : FMatrix) (transpose : Bool) : ℕ → List ℚ :=
  if transpose then colVec M else rowVec M

/-- Call `squareform(pdist(X, metric))`: `0` on the diagonal, and for `i ≠ j` the metric
value of the pair, computed once for `i < j` and mirrored to `(j, i)`. -/
def distEntry (vec : ℕ → List ℚ) (metric : Metric) (i j : ℕ) : FVal :=
  if i = j then .val 0
  else if i < j then metric (vec i) (vec j)
  else metric (vec j) (vec i)

/-- The distance matrix `squareform(pdist(matrix[.T], metric))` of
`compute_similarity`. -/
def distMatrix (M : FMatrix) (metric : Metric) (transpose : Bool) : ℕ → ℕ → FVal :=
  distEntry (simVec M transpose) metric

/-- Statement `similarity_matrix[np.isnan(similarity_matrix)] = 1.0`: replace every undefined
distance by `1.0`. -/
def remediate (D : ℕ → ℕ → FVal) : ℕ → ℕ → FVal :=
  fun i j => if (D i j).isNan then .val 1 else D i j

/-- All entries of an `n × n` matrix, flattened row-major. -/
def entriesList (n : ℕ) (D : ℕ → ℕ → FVal) : List FVal :=
  (List.range n).flatMap fun i => (List.range n).map fun j => D i j

/-- Call `similarity_matrix.max()` after NaN remediation: the global maximum of the
whole (remediated) distance matrix. -/
def normalizer (M : FMatrix) (metric : Metric) (transpose : Bool) : FVal :=
  FVal.listMax (entriesList (simDim M transpose) (remediate (distMatrix M metric transpose)))

/-- The similarity matrix: its side length and entry function. -/
structure SimMatrix where
  dim : ℕ
  entry : ℕ → ℕ → FVal

/-- Method `BaseItemRecommendation.compute_similarity`: pairwise distances over the rows
(columns when `transpose`), NaN remediation, then the element-wise transform
`(max - d) / max` with the global maximum as normalizer. The `np.float32` cast
only narrows precision and is not modelled. -/
def compute_similarity (M : FMatrix) (metric : Metric) (transpose : Bool) : SimMatrix :=
  { dim := simDim M transpose
    entry := fun i j =>
      FVal.div
        (FVal.sub (normalizer M metric transpose)
          (remediate (distMatrix M metric transpose) i j))
        (normalizer M metric transpose) }

/-- The full pairwise distance matrix as the specification words it: the distance
between row `i` and row `j` (columns when `transpose`) under the configured metric,
with a zero diagonal. -/
def specDist (M : FMatrix) (metric : Metric) (transpose : Bool) : ℕ → ℕ → FVal :=
  fun i j =>
    if i = j then .val 0
    else metric ((if transpose then colVec M else rowVec M) i)
      ((if transpose then colVec M else rowVec M) j)

/-- Step 2 of the specification: every undefined (NaN) distance replaced with
`1.0`. -/
def specRepaired (M : FMatrix) (metric : Metric) (transpose : Bool) : ℕ → ℕ → FVal :=
  fun i j =>
    if (specDist M metric transpose i j).isNan then .val 1
    else specDist M metric transpose i j

/-- The single global maximum of the whole (repaired) distance matrix. -/
def specMaxDistance (M : FMatrix) (metric : Metric) (transpose : Bool) : FVal :=
  FVal.listMax
    (entriesList (if transpose then M.cols else M.rows) (specRepaired M metric transpose))

/-- The Similarity Engine exactly as the specification words it: first the full
pairwise distance matrix over the rows (over the columns when `transpose` is true)
under the configured metric; then every undefined (NaN) distance replaced with
`1.0`; then `(max_distance - distance) / max_distance` element-wise, where
`max_distance` is the single global maximum of the whole distance matrix (not a
per-row maximum). -/
def specSimilarity (M : FMatrix) (metric : Metric) (transpose : Bool) : SimMatrix :=
  { dim := if transpose then M.cols else M.rows
    entry := fun i j =>
      FVal.div
        (FVal.sub (specMaxDistance M metric transpose) (specRepaired M metric transpose i j))
        (specMaxDistance M metric transpose) }

/-- The hypothetical NaN-free normalization: normalize by the largest defined
(non-NaN) distance of the matrix instead. -/
def nanFreeNormalizer (M : FMatrix) (metric : Metric) (transpose : Bool) : FVal :=
  FVal.listMax
    ((entriesList (simDim M transpose) (distMatrix M metric transpose)).filter
      (fun x => !x.isNan))

/-- The similarity of a pair under the NaN-free normalization. -/
def nanFreeSim (M : FMatrix) (metric : Metric) (transpose : Bool) (i j : ℕ) : FVal :=
  FVal.div
    (FVal.sub (nanFreeNormalizer M metric transpose) (distMatrix M metric transpose i j))
    (nanFreeNormalizer M metric transpose)

/-- The constructor configuration surface relevant to ranking output. -/
structure OutputConfig where
  output_file : Option String
  sep : String
  output_sep : String

/-- A call to the `WriteFile` collaborator: destination, records, field delimiter. -/
structure WriteCall (ρ : Type) where
  file : String
  data : List ρ
  sep : String
deriving DecidableEq

/-- Method `BaseItemRecommendation.write_ranking`: skip entirely when no output file is
configured; otherwise call `WriteFile(self.output_file, data=self.ranking,
sep=self.sep)` — note the source passes `self.sep`, the input delimiter. -/
def write_ranking {ρ : Type} (cfg : OutputConfig) (ranking : List ρ) :
    Option (WriteCall ρ) :=
  match cfg.output_file with
  | none => none
  | some f => some { file := f, data := ranking, sep := cfg.sep }

/-- A state whose identifier maps know user `1` and item `10` only. -/
def staleMapsState : RState ℕ ℕ :=
  { item_to_item_id := [(10, 0)], item_id_to_item := [(0, 10)],
    user_to_user_id := [(1, 0)], user_id_to_user := [(0, 1)],
    users := [1], items := [10], ranking := [] }

/-- A train structure that references user `2`, unknown to `staleMapsState`. -/
def unmappedTrain : DataSet ℕ ℕ :=
  { users := [1, 2], items := [10],
    feedback := fun u => if u = 1 then [(10, 5)] else if u = 2 then [(10, 4)] else [] }

/-- A configured output destination with distinct input and output delimiters. -/
def cfgWithOutput : OutputConfig :=
  { output_file := some "ranking.dat", sep := ",", output_sep := ";" }

/-- The same configuration with no output destination. -/
def cfgNoOutput : OutputConfig :=
  { output_file := none, sep := ",", output_sep := ";" }

/-- A one-record ranking. -/
def rankingEx : List (ℕ × ℕ × ℚ) := [(1, 10, 5)]

/-- An example train structure: interactions (1,10,5), (1,20,3), (2,10,4). -/
def trainDS : DataSet ℕ ℕ :=
  { users := [1, 2], items := [10, 20],
    feedback := fun u =>
      if u = 1 then [(10, 5), (20, 3)] else if u = 2 then [(10, 4)] else [] }

/-- An example test structure introducing the test-only user `3`. -/
def testDS : DataSet ℕ ℕ :=
  { users := [2, 3], items := [20], feedback := fun _ => [] }

/-- First-run records: three users 0, 1, 2 on item 0. -/
def runRecs1 : List (ℕ × ℕ × ℚ) := [(0, 0, 1), (1, 0, 1), (2, 0, 1)]

/-- Second-run records: only users 0 and 1 on item 0. -/
def runRecs2 : List (ℕ × ℕ × ℚ) := [(0, 0, 1), (1, 0, 1)]

/-- The state `compute` reaches from a fresh instance on the second-run records. -/
def secondRunState : RState ℕ ℕ :=
  { item_to_item_id := [(0, 0)], item_id_to_item := [(0, 0)],
    user_to_user_id := [(0, 0), (1, 1)], user_id_to_user := [(0, 0), (1, 1)],
    users := [0, 1], items := [0], ranking := [] }

/-- The `sqeuclidean` metric of scipy: the sum of squared coordinate differences. -/
def sqeuclidean : Metric :=
  fun x y => .val (((x.zip y).map fun p => (p.1 - p.2) ^ 2).sum)

/-- A 2×2 feedback matrix whose rows are identical: `[[1, 0], [1, 0]]`. -/
def identRowsM : FMatrix :=
  { rows := 2, cols := 2, entry := fun _ j => if j = 0 then 1 else 0 }

/-- A 3×1 feedback matrix with rows `[1]`, `[0]`, `[0]`: the two zero rows make one
distance undefined under `nanOnZeroRowsMetric`. -/
def nanColM : FMatrix :=
  { rows := 3, cols := 1, entry := fun i _ => if i = 0 then 1 else 0 }

/-- A (callable) metric that is undefined (NaN) between two all-zero vectors and
half the squared Euclidean distance otherwise — its defined distances on `nanColM`
are all `1/2 < 1`. -/
def nanOnZeroRowsMetric : Metric := fun x y =>
  if x.sum = 0 ∧ y.sum = 0 then .nan
  else .val (((x.zip y).map fun p => (p.1 - p.2) ^ 2).sum / 2)

/-- The feedback matrix of the example train set: `[[5, 3], [4, 0]]`. -/
def exMatrix : FMatrix :=
  { rows := 2, cols := 2,
    entry := fun i j =>
      if i = 0 ∧ j = 0 then 5 else if i = 0 ∧ j = 1 then 3
      else if i = 1 ∧ j = 0 then 4 else 0 }

namespace FVal

theorem fmax_eq_val {u v : FVal} {m : ℚ} (h : fmax u v = val m) :
    u = val m ∨ v = val m := by
  cases u with
  | nan => exact absurd h (by simp [fmax])
  | inf => cases v <;> simp [fmax] at h
  | ninf =>
    cases v with
    | nan => exact absurd h (by simp [fmax])
    | inf => exact absurd h (by simp [fmax])
    | ninf => exact absurd h (by simp [fmax])
    | val b => exact Or.inr h
  | val a =>
    cases v with
    | nan => exact absurd h (by simp [fmax])
    | inf => exact absurd h (by simp [fmax])
    | ninf => exact Or.inl h
    | val b =>
      have h2 : max a b = m := by injection h
      rcases max_choice a b with hc | hc
      · exact Or.inl (by rw [show fmax (val a) (val b) = val (max a b) from rfl] at h; rw [← h2, hc])
      · exact Or.inr (by rw [← h2, hc])

theorem foldl_fmax_eq_val {xs : List FVal} {a : FVal} {m : ℚ}
    (h : xs.foldl fmax a = val m) : a = val m ∨ val m ∈ xs := by
  induction xs generalizing a with
  | nil => exact Or.inl h
  | cons x xs ih =>
    rcases ih h with hacc | hmem
    · rcases fmax_eq_val hacc with h1 | h1
      · exact Or.inl h1
      · exact Or.inr (List.mem_cons.mpr (Or.inl h1.symm))
    · exact Or.inr (List.mem_cons_of_mem _ hmem)

theorem listMax_eq_val_mem {l : List FVal} {m : ℚ} (h : listMax l = val m) :
    val m ∈ l := by
  cases l with
  | nil => simp [listMax] at h
  | cons x xs =>
    rcases foldl_fmax_eq_val h with h1 | h1
    · exact h1 ▸ List.mem_cons_self x xs
    · exact List.mem_cons_of_mem _ h1

theorem foldl_fmax_bounded {b : ℚ} :
    ∀ {xs : List FVal}, (∀ x ∈ xs, ∃ q, x = val q ∧ q ≤ b) →
    ∀ {a : ℚ}, a ≤ b → ∃ c, xs.foldl fmax (val a) = val c ∧ a ≤ c ∧ c ≤ b := by
  intro xs
  induction xs with
  | nil => exact fun _ {a} ha => ⟨a, rfl, le_refl a, ha⟩
  | cons x xs ih =>
    intro hall a ha
    rcases hall x (List.mem_cons_self x xs) with ⟨q, rfl, hq⟩
    have hx : fmax (val a) (val q) = val (max a q) := rfl
    rcases ih (fun y hy => hall y (List.mem_cons_of_mem _ hy)) (max_le ha hq) with
      ⟨c, hc, hac, hcb⟩
    exact ⟨c, by rw [List.foldl_cons, hx]; exact hc, le_trans (le_max_left a q) hac, hcb⟩

theorem foldl_fmax_attains {b : ℚ} :
    ∀ {xs : List FVal}, (∀ x ∈ xs, ∃ q, x = val q ∧ q ≤ b) → val b ∈ xs →
    ∀ {a : ℚ}, a ≤ b → xs.foldl fmax (val a) = val b := by
  intro xs
  induction xs with
  | nil => intro _ hmem; simp at hmem
  | cons x xs ih =>
    intro hall hmem a ha
    have htail : ∀ y ∈ xs, ∃ q, y = val q ∧ q ≤ b :=
      fun y hy => hall y (List.mem_cons_of_mem _ hy)
    rcases hall x (List.mem_cons_self x xs) with ⟨q, rfl, hq⟩
    rw [List.foldl_cons, show fmax (val a) (val q) = val (max a q) from rfl]
    rcases List.mem_cons.mp hmem with hhead | htl
    · have hbq : q = b := by injection hhead.symm
      subst hbq
      have hmaxb : max a q = q := max_eq_right ha
      rw [hmaxb]
      rcases foldl_fmax_bounded htail (le_refl q) with ⟨c, hc, hqc, hcq⟩
      rw [hc, le_antisymm hcq hqc]
    · exact ih htail htl (max_le ha hq)

theorem listMax_attains {l : List FVal} {b : ℚ}
    (hall : ∀ x ∈ l, ∃ q, x = val q ∧ q ≤ b) (hmem : val b ∈ l) :
    listMax l = val b := by
  cases l with
  | nil => simp at hmem
  | cons x xs =>
    have htail : ∀ y ∈ xs, ∃ q, y = val q ∧ q ≤ b :=
      fun y hy => hall y (List.mem_cons_of_mem _ hy)
    rcases hall x (List.mem_cons_self x xs) with ⟨q, rfl, hq⟩
    rcases List.mem_cons.mp hmem with hhead | htl
    · have hbq : q = b := by injection hhead.symm
      subst hbq
      rcases foldl_fmax_bounded htail (le_refl q) with ⟨c, hc, hqc, hcq⟩
      rw [listMax, hc, le_antisymm hcq hqc]
    · exact foldl_fmax_attains htail htl hq

end FVal

theorem any_key_iff_dget_isSome {K V : Type} [DecidableEq K] (d : Dict K V) (k : K) :
    (d.any fun p => decide (p.1 = k)) = true ↔ (dget d k).isSome := by
  induction d with
  | nil => simp [dget]
  | cons p ps ih =>
    by_cases h : p.1 = k
    · simp [dget, h]
    · simp [dget, h, ih]

theorem dget_map_overwrite_self {K V : Type} [DecidableEq K] (d : Dict K V) (k : K) (v : V) :
    dget (d.map fun p => if p.1 = k then (k, v) else p) k = (dget d k).map (fun _ => v) := by
  induction d with
  | nil => rfl
  | cons p ps ih =>
    by_cases h : p.1 = k
    · simp [dget, h]
    · simp [dget, h, ih]

theorem dget_map_overwrite_ne {K V : Type} [DecidableEq K] (d : Dict K V) {k k' : K} (v : V)
    (hne : k' ≠ k) :
    dget (d.map fun p => if p.1 = k then (k, v) else p) k' = dget d k' := by
  induction d with
  | nil => rfl
  | cons p ps ih =>
    by_cases h : p.1 = k
    · have h1 : ¬(k = k') := fun hc => hne (Eq.symm hc)
      have h2 : ¬(p.1 = k') := by rw [h]; exact h1
      simp [dget, h, h1, h2, ih]
    · by_cases h2 : p.1 = k'
      · simp [dget, h, h2, hne]
      · simp [dget, h, h2, ih]

theorem dget_append_left_none {K V : Type} [DecidableEq K] {d1 : Dict K V} (d2 : Dict K V)
    {k : K} (h : dget d1 k = none) : dget (d1 ++ d2) k = dget d2 k := by
  induction d1 with
  | nil => rfl
  | cons p ps ih =>
    by_cases hp : p.1 = k
    · simp [dget, hp] at h
    · rw [List.cons_append]
      simp only [dget, hp, if_false]
      exact ih (by simpa [dget, hp] using h)

theorem dget_append_left_some {K V : Type} [DecidableEq K] {d1 : Dict K V} (d2 : Dict K V)
    {k : K} {w : V} (h : dget d1 k = some w) : dget (d1 ++ d2) k = some w := by
  induction d1 with
  | nil => simp [dget] at h
  | cons p ps ih =>
    rw [List.cons_append]
    by_cases hp : p.1 = k
    · simpa [dget, hp] using h
    · simp only [dget, hp, if_false] at h ⊢
      exact ih h

theorem dget_dinsert_self {K V : Type} [DecidableEq K] (d : Dict K V) (k : K) (v : V) :
    dget (dinsert d k v) k = some v := by
  unfold dinsert
  split
  · rename_i hany
    have hs : (dget d k).isSome := (any_key_iff_dget_isSome d k).mp hany
    rcases Option.isSome_iff_exists.mp hs with ⟨w, hw⟩
    rw [dget_map_overwrite_self, hw]
    rfl
  · rename_i hany
    have hnone : dget d k = none := by
      rcases h : dget d k with _ | w
      · rfl
      · exact absurd ((any_key_iff_dget_isSome d k).mpr (by simp [h])) hany
    rw [dget_append_left_none _ hnone]
    simp [dget]

theorem dget_dinsert_ne {K V : Type} [DecidableEq K] (d : Dict K V) {k k' : K} (v : V)
    (hne : k' ≠ k) : dget (dinsert d k v) k' = dget d k' := by
  unfold dinsert
  split
  · exact dget_map_overwrite_ne d v hne
  · rcases hd : dget d k' with _ | w
    · have h1 : ¬(k = k') := fun hc => hne (Eq.symm hc)
      rw [dget_append_left_none _ hd]
      simp [dget, h1]
    · exact dget_append_left_some _ hd

theorem length_dinsert_of_dget_none {K V : Type} [DecidableEq K] {d : Dict K V} {k : K}
    (v : V) (h : dget d k = none) : (dinsert d k v).length = d.length + 1 := by
  unfold dinsert
  split
  · rename_i hany
    have hs : (dget d k).isSome := (any_key_iff_dget_isSome d k).mp hany
    rw [h] at hs
    simp at hs
  · simp

theorem buildMaps_fwd_not_mem {K : Type} [DecidableEq K] {xs : List K} {x : K}
    (hx : x ∉ xs) : ∀ (fwd : Dict K ℕ) (rev : Dict ℕ K) (i : ℕ),
    dget (buildMaps fwd rev i xs).1 x = dget fwd x := by
  induction xs with
  | nil => intro fwd rev i; rfl
  | cons y ys ih =>
    intro fwd rev i
    have hxy : x ≠ y := fun hc => hx (hc ▸ List.mem_cons_self y ys)
    have hx2 : x ∉ ys := fun hc => hx (List.mem_cons_of_mem _ hc)
    rw [buildMaps, ih hx2, dget_dinsert_ne _ _ hxy]

theorem buildMaps_rev_lt {K : Type} [DecidableEq K] (xs : List K) :
    ∀ (fwd : Dict K ℕ) (rev : Dict ℕ K) (i m : ℕ), m < i →
    dget (buildMaps fwd rev i xs).2 m = dget rev m := by
  induction xs with
  | nil => intro fwd rev i m _; rfl
  | cons y ys ih =>
    intro fwd rev i m hm
    rw [buildMaps, ih _ _ _ _ (Nat.lt_succ_of_lt hm),
      dget_dinsert_ne _ _ (Nat.ne_of_lt hm)]

theorem buildMaps_fwd_get {K : Type} [DecidableEq K] {xs : List K} (hnd : xs.Nodup) :
    ∀ (fwd : Dict K ℕ) (rev : Dict ℕ K) (i : ℕ) (k : ℕ) (hk : k < xs.length),
    dget (buildMaps fwd rev i xs).1 (xs.get ⟨k, hk⟩) = some (i + k) := by
  induction xs with
  | nil => intro _ _ _ k hk; exact absurd hk (Nat.not_lt_zero k)
  | cons y ys ih =>
    intro fwd rev i k hk
    rcases List.nodup_cons.mp hnd with ⟨hy, hnd2⟩
    cases k with
    | zero =>
      rw [buildMaps]
      show dget (buildMaps (dinsert fwd y i) (dinsert rev i y) (i + 1) ys).1 y = some (i + 0)
      rw [buildMaps_fwd_not_mem hy, dget_dinsert_self]
      rfl
    | succ k =>
      rw [buildMaps]
      have hk2 : k < ys.length := Nat.lt_of_succ_lt_succ hk
      show dget (buildMaps (dinsert fwd y i) (dinsert rev i y) (i + 1) ys).1
        (ys.get ⟨k, hk2⟩) = some (i + (k + 1))
      rw [ih hnd2 _ _ _ k hk2]
      congr 1
      omega

theorem buildMaps_rev_get {K : Type} [DecidableEq K] (xs : List K) :
    ∀ (fwd : Dict K ℕ) (rev : Dict ℕ K) (i : ℕ) (k : ℕ) (hk : k < xs.length),
    dget (buildMaps fwd rev i xs).2 (i + k) = some (xs.get ⟨k, hk⟩) := by
  induction xs with
  | nil => intro _ _ _ k hk; exact absurd hk (Nat.not_lt_zero k)
  | cons y ys ih =>
    intro fwd rev i k hk
    cases k with
    | zero =>
      rw [buildMaps]
      show dget (buildMaps (dinsert fwd y i) (dinsert rev i y) (i + 1) ys).2 (i + 0) = some y
      rw [buildMaps_rev_lt ys _ _ _ _ (by omega), Nat.add_zero]
      exact dget_dinsert_self _ _ _
    | succ k =>
      rw [buildMaps]
      have hk2 : k < ys.length := Nat.lt_of_succ_lt_succ hk
      have harith : i + (k + 1) = (i + 1) + k := by omega
      rw [harith]
      exact ih _ _ _ k hk2

theorem buildMaps_fwd_length {K : Type} [DecidableEq K] {xs : List K} (hnd : xs.Nodup) :
    ∀ (fwd : Dict K ℕ) (rev : Dict ℕ K) (i : ℕ), (∀ x ∈ xs, dget fwd x = none) →
    (buildMaps fwd rev i xs).1.length = fwd.length + xs.length := by
  induction xs with
  | nil => intro fwd _ _ _; rfl
  | cons y ys ih =>
    intro fwd rev i hnone
    rcases List.nodup_cons.mp hnd with ⟨hy, hnd2⟩
    rw [buildMaps, ih hnd2]
    · rw [length_dinsert_of_dget_none _ (hnone y (List.mem_cons_self y ys))]
      simp [List.length_cons]
      omega
    · intro x hx
      have hxy : x ≠ y := fun hc => hy (hc ▸ hx)
      rw [dget_dinsert_ne _ _ hxy]
      exact hnone x (List.mem_cons_of_mem _ hx)

theorem buildMaps_rev_length {K : Type} [DecidableEq K] (xs : List K) :
    ∀ (fwd : Dict K ℕ) (rev : Dict ℕ K) (i : ℕ), (∀ m, i ≤ m → dget rev m = none) →
    (buildMaps fwd rev i xs).2.length = rev.length + xs.length := by
  induction xs with
  | nil => intro _ _ _ _; rfl
  | cons y ys ih =>
    intro fwd rev i hnone
    rw [buildMaps, ih]
    · rw [length_dinsert_of_dget_none _ (hnone i (le_refl i))]
      simp [List.length_cons]
      omega
    · intro m hm
      rw [dget_dinsert_ne _ _ (by omega : m ≠ i)]
      exact hnone m (by omega)

theorem sortUnion_sorted {α : Type} [LinearOrder α] (l1 l2 : List α) :
    (sortUnion l1 l2).Sorted (· ≤ ·) :=
  List.sorted_insertionSort _ _

theorem sortUnion_nodup {α : Type} [LinearOrder α] (l1 l2 : List α) :
    (sortUnion l1 l2).Nodup :=
  ((List.perm_insertionSort _ _).nodup_iff).mpr (List.nodup_dedup _)

theorem mem_sortUnion {α : Type} [LinearOrder α] {x : α} {l1 l2 : List α} :
    x ∈ sortUnion l1 l2 ↔ x ∈ l1 ∨ x ∈ l2 := by
  unfold sortUnion
  rw [(List.perm_insertionSort _ _).mem_iff, List.mem_dedup, List.mem_append]

theorem fillCells_resolved {α β : Type} [DecidableEq α] [DecidableEq β]
    {du : Dict α ℕ} {di : Dict β ℕ} {ts : List (α × β × ℚ)} {rts : List (ℕ × ℕ × ℚ)}
    (hres : List.Forall₂ (fun (t : α × β × ℚ) (rt : ℕ × ℕ × ℚ) =>
      dget du t.1 = some rt.1 ∧ dget di t.2.1 = some rt.2.1 ∧ t.2.2 = rt.2.2) ts rts) :
    ∀ M, fillCells du di ts M = .ok (applyCells rts M) := by
  induction hres with
  | nil => intro M; rfl
  | cons hhead _ ih =>
    intro M
    rcases hhead with ⟨hu, hi, hv⟩
    rw [fillCells, hu, hi, hv]
    exact ih _

theorem fillCells_unmapped {α β : Type} [DecidableEq α] [DecidableEq β]
    {du : Dict α ℕ} {di : Dict β ℕ} {ts : List (α × β × ℚ)}
    (hbad : ∃ t ∈ ts, dget du t.1 = none ∨ dget di t.2.1 = none) :
    ∀ M, fillCells du di ts M = .error .unmappedEntityError := by
  induction ts with
  | nil => rcases hbad with ⟨t, ht, _⟩; simp at ht
  | cons t ts ih =>
    intro M
    rcases hbad with ⟨t1, ht1, hfail⟩
    rcases List.mem_cons.mp ht1 with rfl | htl
    · rcases hfail with hu | hi
      · rw [fillCells, hu]
      · rw [fillCells, hi]
        rcases dget du t1.1 with _ | r <;> rfl
    · rcases hu : dget du t.1 with _ | r
      · rw [fillCells, hu]
      · rcases hi : dget di t.2.1 with _ | c
        · rw [fillCells, hu, hi]
        · rw [fillCells, hu, hi]
          exact ih ⟨t1, htl, hfail⟩ _

theorem applyCells_shape (rts : List (ℕ × ℕ × ℚ)) :
    ∀ M, (applyCells rts M).rows = M.rows ∧ (applyCells rts M).cols = M.cols := by
  induction rts with
  | nil => intro M; exact ⟨rfl, rfl⟩
  | cons t ts ih => intro M; exact ih _

theorem applyCells_untouched {r c : ℕ} :
    ∀ {rts : List (ℕ × ℕ × ℚ)}, (∀ rt ∈ rts, ¬(rt.1 = r ∧ rt.2.1 = c)) →
    ∀ M, (applyCells rts M).entry r c = M.entry r c := by
  intro rts
  induction rts with
  | nil => intro _ M; rfl
  | cons t ts ih =>
    intro hall M
    rw [applyCells, ih (fun rt hrt => hall rt (List.mem_cons_of_mem _ hrt))]
    have hne : ¬(r = t.1 ∧ c = t.2.1) := by
      intro hc
      exact hall t (List.mem_cons_self t ts) ⟨hc.1.symm, hc.2.symm⟩
    simp [setCell, hne]

theorem applyCells_written {rts : List (ℕ × ℕ × ℚ)}
    (hnd : (rts.map (fun rt => (rt.1, rt.2.1))).Nodup) :
    ∀ rt ∈ rts, ∀ M, (applyCells rts M).entry rt.1 rt.2.1 = rt.2.2 := by
  induction rts with
  | nil => intro rt hrt; simp at hrt
  | cons t ts ih =>
    intro rt hrt M
    rcases List.nodup_cons.mp hnd with ⟨hhead, hnd2⟩
    rcases List.mem_cons.mp hrt with rfl | htl
    · have hcells : ∀ rt2 ∈ ts, ¬(rt2.1 = rt.1 ∧ rt2.2.1 = rt.2.1) := by
        intro rt2 hrt2 hc
        exact hhead (by
          rw [List.mem_map]
          exact ⟨rt2, hrt2, by rw [hc.1, hc.2]⟩)
      rw [applyCells, applyCells_untouched hcells]
      simp [setCell]
    · exact ih hnd2 rt htl _

theorem sum_setCell {M : FMatrix} {r c : ℕ} (v : ℚ) (hr : r < M.rows)
    (hc : c < M.cols) :
    sumMat (setCell M r c v) = sumMat M - M.entry r c + v := by
  have hrows : (setCell M r c v).rows = M.rows := rfl
  have hcols : (setCell M r c v).cols = M.cols := rfl
  unfold sumMat
  rw [hrows, hcols]
  have hrmem : r ∈ Finset.range M.rows := Finset.mem_range.mpr hr
  have hcmem : c ∈ Finset.range M.cols := Finset.mem_range.mpr hc
  rw [← Finset.add_sum_erase _ _ hrmem,
    ← Finset.add_sum_erase _ (fun i => ∑ j ∈ Finset.range M.cols, M.entry i j) hrmem]
  have houter : ∑ i ∈ (Finset.range M.rows).erase r,
      (∑ j ∈ Finset.range M.cols, (setCell M r c v).entry i j) =
      ∑ i ∈ (Finset.range M.rows).erase r, ∑ j ∈ Finset.range M.cols, M.entry i j := by
    refine Finset.sum_congr rfl (fun i hi => Finset.sum_congr rfl (fun j _ => ?_))
    have hir : ¬(i = r) := (Finset.mem_erase.mp hi).1
    simp [setCell, hir]
  have hinner : ∑ j ∈ Finset.range M.cols, (setCell M r c v).entry r j =
      v + ((∑ j ∈ Finset.range M.cols, M.entry r j) - M.entry r c) := by
    rw [← Finset.add_sum_erase _ (fun j => (setCell M r c v).entry r j) hcmem,
      ← Finset.add_sum_erase _ (fun j => M.entry r j) hcmem]
    have h1 : (setCell M r c v).entry r c = v := by simp [setCell]
    have h2 : ∑ j ∈ (Finset.range M.cols).erase c, (setCell M r c v).entry r j =
        ∑ j ∈ (Finset.range M.cols).erase c, M.entry r j := by
      refine Finset.sum_congr rfl (fun j hj => ?_)
      have hjc : ¬(j = c) := (Finset.mem_erase.mp hj).1
      simp [setCell, hjc]
    rw [h1, h2]
    ring
  rw [houter, hinner]
  ring

theorem applyCells_sum :
    ∀ {rts : List (ℕ × ℕ × ℚ)}, (rts.map (fun rt => (rt.1, rt.2.1))).Nodup →
    ∀ M, (∀ rt ∈ rts, rt.1 < M.rows ∧ rt.2.1 < M.cols) →
    (∀ rt ∈ rts, M.entry rt.1 rt.2.1 = 0) →
    sumMat (applyCells rts M) = sumMat M + (rts.map (fun rt => rt.2.2)).sum := by
  intro rts
  induction rts with
  | nil => intro _ M _ _; simp [applyCells]
  | cons t ts ih =>
    intro hnd M hbound hzero
    rcases List.nodup_cons.mp hnd with ⟨hhead, hnd2⟩
    rcases hbound t (List.mem_cons_self t ts) with ⟨hr, hc⟩
    have hz : M.entry t.1 t.2.1 = 0 := hzero t (List.mem_cons_self t ts)
    have hbound2 : ∀ rt ∈ ts, rt.1 < (setCell M t.1 t.2.1 t.2.2).rows ∧
        rt.2.1 < (setCell M t.1 t.2.1 t.2.2).cols :=
      fun rt hrt => hbound rt (List.mem_cons_of_mem _ hrt)
    have hzero2 : ∀ rt ∈ ts, (setCell M t.1 t.2.1 t.2.2).entry rt.1 rt.2.1 = 0 := by
      intro rt hrt
      have hne : ¬(rt.1 = t.1 ∧ rt.2.1 = t.2.1) := by
        intro hcx
        exact hhead (by
          rw [List.mem_map]
          exact ⟨rt, hrt, by rw [hcx.1, hcx.2]⟩)
      simpa [setCell, hne] using hzero rt (List.mem_cons_of_mem _ hrt)
    rw [applyCells, ih hnd2 _ hbound2 hzero2, sum_setCell _ hr hc, hz]
    simp [List.map_cons, List.sum_cons]
    ring

theorem universeUsers_nodup {α β : Type} [LinearOrder α] {train : DataSet α β}
    {test : Option (DataSet α β)} (hnu : train.users.Nodup) :
    (universeUsers train test).Nodup := by
  cases test with
  | none => exact hnu
  | some t => exact sortUnion_nodup _ _

theorem universeItems_nodup {α β : Type} [LinearOrder β] {train : DataSet α β}
    {test : Option (DataSet α β)} (hni : train.items.Nodup) :
    (universeItems train test).Nodup := by
  cases test with
  | none => exact hni
  | some t => exact sortUnion_nodup _ _

theorem mem_universeUsers {α β : Type} [LinearOrder α] {train : DataSet α β}
    {test : Option (DataSet α β)} {x : α} :
    x ∈ universeUsers train test ↔
      x ∈ train.users ∨ ∃ t, test = some t ∧ x ∈ t.users := by
  cases test with
  | none => simp [universeUsers]
  | some t => simp [universeUsers, mem_sortUnion]

theorem mem_universeItems {α β : Type} [LinearOrder β] {train : DataSet α β}
    {test : Option (DataSet α β)} {y : β} :
    y ∈ universeItems train test ↔
      y ∈ train.items ∨ ∃ t, test = some t ∧ y ∈ t.items := by
  cases test with
  | none => simp [universeItems]
  | some t => simp [universeItems, mem_sortUnion]

theorem mem_triples {α β : Type} {train : DataSet α β} {t : α × β × ℚ} :
    t ∈ triples train ↔ t.1 ∈ train.users ∧ (t.2.1, t.2.2) ∈ train.feedback t.1 := by
  constructor
  · intro h
    rcases List.mem_flatMap.mp h with ⟨u, hu, hmem⟩
    rcases List.mem_map.mp hmem with ⟨p, hp, heq⟩
    subst heq
    exact ⟨hu, by simpa using hp⟩
  · intro ⟨hu, hp⟩
    refine List.mem_flatMap.mpr ⟨t.1, hu, List.mem_map.mpr ⟨(t.2.1, t.2.2), hp, ?_⟩⟩
    rfl

theorem sum_flatMap_rat {γ : Type} (l : List γ) (f : γ → List ℚ) :
    (l.flatMap f).sum = (l.map fun a => (f a).sum).sum := by
  induction l with
  | nil => rfl
  | cons x xs ih => simp [List.flatMap_cons, List.sum_append, ih]

/-- Lookup of a universe member in the forward dictionary that `read_data_sets`
builds: a member at position `k` maps to index `k` (for any starting dictionary,
since the loop overwrites or appends every current key). -/
theorem read_data_sets_fwd_user {α β : Type} [LinearOrder α] [LinearOrder β]
    (s : RState α β) (train : DataSet α β) (test : Option (DataSet α β))
    (hnd : (universeUsers train test).Nodup) (k : ℕ)
    (hk : k < (universeUsers train test).length) :
    dget (read_data_sets s train test).user_to_user_id
      ((universeUsers train test).get ⟨k, hk⟩) = some k := by
  have h := buildMaps_fwd_get hnd s.user_to_user_id s.user_id_to_user 0 k hk
  rw [Nat.zero_add] at h
  exact h

theorem read_data_sets_fwd_item {α β : Type} [LinearOrder α] [LinearOrder β]
    (s : RState α β) (train : DataSet α β) (test : Option (DataSet α β))
    (hnd : (universeItems train test).Nodup) (k : ℕ)
    (hk : k < (universeItems train test).length) :
    dget (read_data_sets s train test).item_to_item_id
      ((universeItems train test).get ⟨k, hk⟩) = some k := by
  have h := buildMaps_fwd_get hnd s.item_to_item_id s.item_id_to_item 0 k hk
  rw [Nat.zero_add] at h
  exact h

/-- C6 — When the train entity set is empty, the pipeline fails with
`MissingDataError` (and not by proceeding, succeeding vacuously, or failing with a
different error): `read_data` on an empty train source returns exactly
`.error .missingDataError`, whatever the instance state and test source. -/
theorem read_data_empty_train_missingData {α β : Type} [LinearOrder α] [LinearOrder β]
    (s : RState α β) (testRecs : Option (List (α × β × ℚ))) :
    read_data s [] testRecs = .error .missingDataError := rfl

/-- C7 — If the train interaction structure references a user or item absent from
the identifier maps, `create_matrix` fails with `UnmappedEntityError` (the
name the specification gives the `KeyError` the dictionary lookup raises) instead of
silently expanding the matrix. -/
theorem create_matrix_unmapped_fails {α β : Type} [DecidableEq α] [DecidableEq β]
    (s : RState α β) (train : DataSet α β)
    (hbad : ∃ t ∈ triples train,
      dget s.user_to_user_id t.1 = none ∨ dget s.item_to_item_id t.2.1 = none) :
    create_matrix s train = .error .unmappedEntityError :=
  fillCells_unmapped hbad _

/-- Witness for C7 at a concrete input: the train structure references user `2`,
which the identifier maps do not contain, and `create_matrix` fails with
`UnmappedEntityError`. -/
theorem create_matrix_unmapped_fails_witness :
    (∃ t ∈ triples unmappedTrain,
      dget staleMapsState.user_to_user_id t.1 = none ∨
      dget staleMapsState.item_to_item_id t.2.1 = none) ∧
    create_matrix staleMapsState unmappedTrain = .error .unmappedEntityError := by
  have hbad : ∃ t ∈ triples unmappedTrain,
      dget staleMapsState.user_to_user_id t.1 = none ∨
      dget staleMapsState.item_to_item_id t.2.1 = none := by
    refine ⟨(2, 10, 4), ?_, Or.inl rfl⟩
    simp [triples, unmappedTrain]
  exact ⟨hbad, create_matrix_unmapped_fails staleMapsState unmappedTrain hbad⟩

/-- C9 — `write_ranking` is skipped entirely when no output destination is
configured; but when one is configured the source serializes with `self.sep`, the
input delimiter, not the configured output delimiter `self.output_sep`: at this
concrete configuration (input delimiter `","`, output delimiter `";"`) the write
call carries `","`. -/
theorem write_ranking_sep_behaviour :
    write_ranking cfgNoOutput rankingEx = none ∧
    write_ranking cfgWithOutput rankingEx =
      some { file := "ranking.dat", data := rankingEx, sep := "," } ∧
    cfgWithOutput.output_sep = ";" ∧
    cfgWithOutput.sep ≠ cfgWithOutput.output_sep := by
  refine ⟨rfl, rfl, rfl, ?_⟩
  decide

/-- C4 — After `read_data` on a fresh instance: with no test source the universe is
exactly the (reader-reported, sorted) train entities; with a test source it is the
sorted union of train and test entities; in both cases the universes are sorted and
duplicate-free, membership is exactly train-or-test (so test-only entities are
included), and the entity at sorted position `k` receives dense index `k` — a pure
function of the input, hence deterministic across repeated runs. -/
theorem read_data_universe_deterministic {α β : Type} [LinearOrder α] [LinearOrder β]
    (train : DataSet α β) (test : Option (DataSet α β))
    (hsu : train.users.Sorted (· ≤ ·)) (hnu : train.users.Nodup)
    (hsi : train.items.Sorted (· ≤ ·)) (hni : train.items.Nodup) :
    (test = none →
      (read_data_sets (freshState : RState α β) train test).users = train.users ∧
      (read_data_sets (freshState : RState α β) train test).items = train.items) ∧
    (read_data_sets (freshState : RState α β) train test).users.Sorted (· ≤ ·) ∧
    (read_data_sets (freshState : RState α β) train test).users.Nodup ∧
    (read_data_sets (freshState : RState α β) train test).items.Sorted (· ≤ ·) ∧
    (read_data_sets (freshState : RState α β) train test).items.Nodup ∧
    (∀ x, x ∈ (read_data_sets (freshState : RState α β) train test).users ↔
      x ∈ train.users ∨ ∃ t, test = some t ∧ x ∈ t.users) ∧
    (∀ y, y ∈ (read_data_sets (freshState : RState α β) train test).items ↔
      y ∈ train.items ∨ ∃ t, test = some t ∧ y ∈ t.items) ∧
    (∀ k, (hk : k < (read_data_sets (freshState : RState α β) train test).users.length) →
      dget (read_data_sets (freshState : RState α β) train test).user_to_user_id
        ((read_data_sets (freshState : RState α β) train test).users.get ⟨k, hk⟩) = some k) ∧
    (∀ k, (hk : k < (read_data_sets (freshState : RState α β) train test).items.length) →
      dget (read_data_sets (freshState : RState α β) train test).item_to_item_id
        ((read_data_sets (freshState : RState α β) train test).items.get ⟨k, hk⟩) = some k) := by
  refine ⟨?_, ?_, universeUsers_nodup hnu, ?_, universeItems_nodup hni, ?_, ?_, ?_, ?_⟩
  · intro ht
    subst ht
    exact ⟨rfl, rfl⟩
  · show (universeUsers train test).Sorted (· ≤ ·)
    cases test with
    | none => exact hsu
    | some t => exact sortUnion_sorted _ _
  · show (universeItems train test).Sorted (· ≤ ·)
    cases test with
    | none => exact hsi
    | some t => exact sortUnion_sorted _ _
  · intro x
    exact mem_universeUsers
  · intro y
    exact mem_universeItems
  · intro k hk
    exact read_data_sets_fwd_user freshState train test (universeUsers_nodup hnu) k hk
  · intro k hk
    exact read_data_sets_fwd_item freshState train test (universeItems_nodup hni) k hk

/-- Witness for C4 at a concrete input (train plus a test source with a test-only
user). -/
theorem read_data_universe_deterministic_witness :
    ((some testDS : Option (DataSet ℕ ℕ)) = none →
      (read_data_sets (freshState : RState ℕ ℕ) trainDS (some testDS)).users = trainDS.users ∧
      (read_data_sets (freshState : RState ℕ ℕ) trainDS (some testDS)).items = trainDS.items) ∧
    (read_data_sets (freshState : RState ℕ ℕ) trainDS (some testDS)).users.Sorted (· ≤ ·) ∧
    (read_data_sets (freshState : RState ℕ ℕ) trainDS (some testDS)).users.Nodup ∧
    (read_data_sets (freshState : RState ℕ ℕ) trainDS (some testDS)).items.Sorted (· ≤ ·) ∧
    (read_data_sets (freshState : RState ℕ ℕ) trainDS (some testDS)).items.Nodup ∧
    (∀ x, x ∈ (read_data_sets (freshState : RState ℕ ℕ) trainDS (some testDS)).users ↔
      x ∈ trainDS.users ∨ ∃ t, (some testDS : Option (DataSet ℕ ℕ)) = some t ∧ x ∈ t.users) ∧
    (∀ y, y ∈ (read_data_sets (freshState : RState ℕ ℕ) trainDS (some testDS)).items ↔
      y ∈ trainDS.items ∨ ∃ t, (some testDS : Option (DataSet ℕ ℕ)) = some t ∧ y ∈ t.items) ∧
    (∀ k, (hk : k < (read_data_sets (freshState : RState ℕ ℕ) trainDS (some testDS)).users.length) →
      dget (read_data_sets (freshState : RState ℕ ℕ) trainDS (some testDS)).user_to_user_id
        ((read_data_sets (freshState : RState ℕ ℕ) trainDS (some testDS)).users.get ⟨k, hk⟩) =
        some k) ∧
    (∀ k, (hk : k < (read_data_sets (freshState : RState ℕ ℕ) trainDS (some testDS)).items.length) →
      dget (read_data_sets (freshState : RState ℕ ℕ) trainDS (some testDS)).item_to_item_id
        ((read_data_sets (freshState : RState ℕ ℕ) trainDS (some testDS)).items.get ⟨k, hk⟩) =
        some k) :=
  read_data_universe_deterministic trainDS (some testDS)
    (by decide) (by decide) (by decide) (by decide)

/-- C5 — On a fresh instance, `read_data` builds true bijections: every user and
item of the entity universe round-trips through the forward and reverse maps
(`reverse(forward(x)) = x`), and the number of entries of each forward map equals
the size of the corresponding entity universe. -/
theorem identifier_maps_bijection {α β : Type} [LinearOrder α] [LinearOrder β]
    (train : DataSet α β) (test : Option (DataSet α β))
    (hnu : train.users.Nodup) (hni : train.items.Nodup) :
    (∀ u ∈ (read_data_sets (freshState : RState α β) train test).users,
      ∃ k, dget (read_data_sets (freshState : RState α β) train test).user_to_user_id u =
          some k ∧
        dget (read_data_sets (freshState : RState α β) train test).user_id_to_user k =
          some u) ∧
    (∀ i ∈ (read_data_sets (freshState : RState α β) train test).items,
      ∃ k, dget (read_data_sets (freshState : RState α β) train test).item_to_item_id i =
          some k ∧
        dget (read_data_sets (freshState : RState α β) train test).item_id_to_item k =
          some i) ∧
    (read_data_sets (freshState : RState α β) train test).user_to_user_id.length =
      (read_data_sets (freshState : RState α β) train test).users.length ∧
    (read_data_sets (freshState : RState α β) train test).item_to_item_id.length =
      (read_data_sets (freshState : RState α β) train test).items.length := by
  refine ⟨?_, ?_, ?_, ?_⟩
  · intro u hu
    rcases List.mem_iff_get.mp hu with ⟨⟨k, hk⟩, hget⟩
    refine ⟨k, ?_, ?_⟩
    · rw [← hget]
      exact read_data_sets_fwd_user freshState train test (universeUsers_nodup hnu) k hk
    · have h := buildMaps_rev_get (universeUsers train test)
        (freshState : RState α β).user_to_user_id
        (freshState : RState α β).user_id_to_user 0 k hk
      rw [Nat.zero_add] at h
      exact h.trans (congrArg some hget)
  · intro i hi
    rcases List.mem_iff_get.mp hi with ⟨⟨k, hk⟩, hget⟩
    refine ⟨k, ?_, ?_⟩
    · rw [← hget]
      exact read_data_sets_fwd_item freshState train test (universeItems_nodup hni) k hk
    · have h := buildMaps_rev_get (universeItems train test)
        (freshState : RState α β).item_to_item_id
        (freshState : RState α β).item_id_to_item 0 k hk
      rw [Nat.zero_add] at h
      exact h.trans (congrArg some hget)
  · have h := buildMaps_fwd_length (@universeUsers_nodup α β _ train test hnu)
      (freshState : RState α β).user_to_user_id
      (freshState : RState α β).user_id_to_user 0 (fun x _ => rfl)
    exact h.trans (Nat.zero_add _)
  · have h := buildMaps_fwd_length (@universeItems_nodup α β _ train test hni)
      (freshState : RState α β).item_to_item_id
      (freshState : RState α β).item_id_to_item 0 (fun x _ => rfl)
    exact h.trans (Nat.zero_add _)

/-- Witness for C5 at a concrete input. -/
theorem identifier_maps_bijection_witness :
    (∀ u ∈ (read_data_sets (freshState : RState ℕ ℕ) trainDS (some testDS)).users,
      ∃ k, dget (read_data_sets (freshState : RState ℕ ℕ) trainDS (some testDS)).user_to_user_id u =
          some k ∧
        dget (read_data_sets (freshState : RState ℕ ℕ) trainDS (some testDS)).user_id_to_user k =
          some u) ∧
    (∀ i ∈ (read_data_sets (freshState : RState ℕ ℕ) trainDS (some testDS)).items,
      ∃ k, dget (read_data_sets (freshState : RState ℕ ℕ) trainDS (some testDS)).item_to_item_id i =
          some k ∧
        dget (read_data_sets (freshState : RState ℕ ℕ) trainDS (some testDS)).item_id_to_item k =
          some i) ∧
    (read_data_sets (freshState : RState ℕ ℕ) trainDS (some testDS)).user_to_user_id.length =
      (read_data_sets (freshState : RState ℕ ℕ) trainDS (some testDS)).users.length ∧
    (read_data_sets (freshState : RState ℕ ℕ) trainDS (some testDS)).item_to_item_id.length =
      (read_data_sets (freshState : RState ℕ ℕ) trainDS (some testDS)).items.length :=
  identifier_maps_bijection trainDS (some testDS) (by decide) (by decide)

/-- C8 counterexample — reusing the instance is NOT equivalent to a fresh instance:
after a first `compute` on three users and a second on two, the user dictionary
still holds the entry of the first run for user `2` (`dict.update` never clears), while
a fresh instance run on the second input alone does not. -/
theorem compute_reuse_stale_dict_counterexample :
    ((compute_model (freshState : RState ℕ ℕ) runRecs1 none).bind
        (fun s1 => compute_model s1 runRecs2 none)).toOption.map
      (fun s => s.user_to_user_id) ≠
    (compute_model (freshState : RState ℕ ℕ) runRecs2 none).toOption.map
      (fun s => s.user_to_user_id) := by
  decide

/-- C8 amended — what reuse actually guarantees: the ranking container is reset to
empty on every `compute`, and `read_data` reassigns the universes from scratch and
gives every entity of the new universe its correct fresh index (for any starting
state); but the four identifier dictionaries are `update`d in place, so entries for
entities absent from the new input survive (see the counterexample) — the instance
need not equal a fresh one. -/
theorem compute_reuse_resets_ranking_keeps_stale_maps {α β : Type} [LinearOrder α] [LinearOrder β] :
    (∀ (s : RState α β) trainRecs testRecs s1,
      compute_model s trainRecs testRecs = .ok s1 → s1.ranking = []) ∧
    (∀ (s : RState α β) (train : DataSet α β) (test : Option (DataSet α β)),
      (read_data_sets s train test).users =
        (read_data_sets (freshState : RState α β) train test).users ∧
      (read_data_sets s train test).items =
        (read_data_sets (freshState : RState α β) train test).items ∧
      (train.users.Nodup →
        ∀ u ∈ (read_data_sets s train test).users,
          dget (read_data_sets s train test).user_to_user_id u =
          dget (read_data_sets (freshState : RState α β) train test).user_to_user_id u) ∧
      (train.items.Nodup →
        ∀ i ∈ (read_data_sets s train test).items,
          dget (read_data_sets s train test).item_to_item_id i =
          dget (read_data_sets (freshState : RState α β) train test).item_to_item_id i)) := by
  constructor
  · intro s trainRecs testRecs s1 hok
    unfold compute_model at hok
    cases hr : read_data s trainRecs testRecs with
    | error e => rw [hr] at hok; exact absurd hok (by simp)
    | ok s2 =>
      rw [hr] at hok
      have h2 : (Except.ok { s2 with ranking := ([] : List (α × β × ℚ)) } :
          Except PipelineError (RState α β)) = Except.ok s1 := hok
      cases h2
      rfl
  · intro s train test
    refine ⟨rfl, rfl, ?_, ?_⟩
    · intro hnu u hu
      have hnd := @universeUsers_nodup α β _ train test hnu
      rcases List.mem_iff_get.mp hu with ⟨⟨k, hk⟩, hget⟩
      have hget2 : (universeUsers train test).get ⟨k, hk⟩ = u := hget
      have ha := read_data_sets_fwd_user s train test hnd k hk
      have hb := read_data_sets_fwd_user freshState train test hnd k hk
      rw [hget2] at ha hb
      exact ha.trans hb.symm
    · intro hni i hi
      have hnd := @universeItems_nodup α β _ train test hni
      rcases List.mem_iff_get.mp hi with ⟨⟨k, hk⟩, hget⟩
      have hget2 : (universeItems train test).get ⟨k, hk⟩ = i := hget
      have ha := read_data_sets_fwd_item s train test hnd k hk
      have hb := read_data_sets_fwd_item freshState train test hnd k hk
      rw [hget2] at ha hb
      exact ha.trans hb.symm

/-- Witness for the amended C8 at concrete inputs: the ranking of the state reached
by `compute` is empty, and on a reused (stale) state the lookup of a current user
agrees with the lookup on a fresh instance. -/
theorem compute_reuse_resets_ranking_keeps_stale_maps_witness :
    secondRunState.ranking = [] ∧
    dget (read_data_sets staleMapsState trainDS none).user_to_user_id 1 =
      dget (read_data_sets (freshState : RState ℕ ℕ) trainDS none).user_to_user_id 1 := by
  constructor
  · exact (@compute_reuse_resets_ranking_keeps_stale_maps ℕ ℕ _ _).1 freshState runRecs2 none
      secondRunState rfl
  · exact ((@compute_reuse_resets_ranking_keeps_stale_maps ℕ ℕ _ _).2 staleMapsState trainDS
      none).2.2.1 (by decide) 1 (by decide)

theorem map_congr_mem {γ δ : Type} {l : List γ} {f g : γ → δ}
    (h : ∀ x ∈ l, f x = g x) : l.map f = l.map g := by
  induction l with
  | nil => rfl
  | cons x xs ih =>
    rw [List.map_cons, List.map_cons, h x (List.mem_cons_self x xs),
      ih (fun y hy => h y (List.mem_cons_of_mem _ hy))]

theorem flatMap_congr_mem {γ δ : Type} {l : List γ} {f g : γ → List δ}
    (h : ∀ x ∈ l, f x = g x) : l.flatMap f = l.flatMap g := by
  induction l with
  | nil => rfl
  | cons x xs ih =>
    rw [List.flatMap_cons, List.flatMap_cons, h x (List.mem_cons_self x xs),
      ih (fun y hy => h y (List.mem_cons_of_mem _ hy))]

theorem entriesList_congr {n : ℕ} {D E : ℕ → ℕ → FVal}
    (h : ∀ i j, i < n → j < n → D i j = E i j) : entriesList n D = entriesList n E := by
  unfold entriesList
  refine flatMap_congr_mem (fun i hi => map_congr_mem (fun j hj => ?_))
  exact h i j (List.mem_range.mp hi) (List.mem_range.mp hj)

/-- C1 — `compute_similarity` refines the three-step description of the specification:
full pairwise distance matrix over the rows (over the columns when `transpose`),
NaN distances replaced by `1.0`, then `(max_distance - distance) / max_distance`
element-wise with the single global maximum of the whole distance matrix as
normalizer. (The metric is required to be symmetric on the vectors in range,
which every scipy distance metric is; the source computes each unordered pair
once and mirrors it, the specification states the full matrix directly.) -/
theorem compute_similarity_matches_spec (M : FMatrix) (metric : Metric)
    (transpose : Bool)
    (hsym : ∀ i j, i < simDim M transpose → j < simDim M transpose →
      metric (simVec M transpose i) (simVec M transpose j) =
      metric (simVec M transpose j) (simVec M transpose i)) :
    (compute_similarity M metric transpose).dim = (specSimilarity M metric transpose).dim ∧
    ∀ i j, i < simDim M transpose → j < simDim M transpose →
      (compute_similarity M metric transpose).entry i j =
      (specSimilarity M metric transpose).entry i j := by
  have hD : ∀ a b, a < simDim M transpose → b < simDim M transpose →
      distMatrix M metric transpose a b = specDist M metric transpose a b := by
    intro a b ha hb
    unfold distMatrix distEntry specDist
    by_cases hab : a = b
    · simp [hab]
    · rcases Nat.lt_or_ge a b with hlt | hge
      · simp only [hab, if_false, hlt, if_true]
        rfl
      · have hgt : b < a := Nat.lt_of_le_of_ne hge (fun hc => hab hc.symm)
        have hnlt : ¬(a < b) := Nat.lt_asymm hgt
        simp only [hab, if_false, hnlt]
        exact hsym b a hb ha
  have hR : ∀ a b, a < simDim M transpose → b < simDim M transpose →
      remediate (distMatrix M metric transpose) a b = specRepaired M metric transpose a b := by
    intro a b ha hb
    unfold remediate specRepaired
    rw [hD a b ha hb]
  have hMax : normalizer M metric transpose = specMaxDistance M metric transpose := by
    unfold normalizer specMaxDistance
    have hdim : simDim M transpose = if transpose then M.cols else M.rows := rfl
    rw [← hdim, entriesList_congr hR]
  refine ⟨rfl, ?_⟩
  intro i j hi hj
  show FVal.div
      (FVal.sub (normalizer M metric transpose) (remediate (distMatrix M metric transpose) i j))
      (normalizer M metric transpose) =
    FVal.div
      (FVal.sub (specMaxDistance M metric transpose) (specRepaired M metric transpose i j))
      (specMaxDistance M metric transpose)
  rw [hMax, hR i j hi hj]

theorem sqeuclidean_symm (x y : List ℚ) : sqeuclidean x y = sqeuclidean y x := by
  unfold sqeuclidean
  congr 1
  induction x generalizing y with
  | nil => cases y <;> rfl
  | cons a xs ih =>
    cases y with
    | nil => rfl
    | cons b ys =>
      simp only [List.zip_cons_cons, List.map_cons, List.sum_cons, ih ys]
      ring_nf

theorem create_matrix_spec_aux {α β : Type} [DecidableEq α] [DecidableEq β]
    (s : RState α β) (train : DataSet α β) (ru : α → ℕ) (ri : β → ℕ)
    (hruU : ∀ u ∈ train.users,
      dget s.user_to_user_id u = some (ru u) ∧ ru u < s.users.length)
    (hriI : ∀ i ∈ train.items,
      dget s.item_to_item_id i = some (ri i) ∧ ri i < s.items.length)
    (hinjU : ∀ u1 ∈ train.users, ∀ u2 ∈ train.users, ru u1 = ru u2 → u1 = u2)
    (hinjI : ∀ i1 ∈ train.items, ∀ i2 ∈ train.items, ri i1 = ri i2 → i1 = i2)
    (hnu : train.users.Nodup)
    (hkeys : ∀ u ∈ train.users, ((train.feedback u).map (fun p => p.1)).Nodup)
    (hitems : ∀ u ∈ train.users, ∀ p ∈ train.feedback u, p.1 ∈ train.items) :
    ∃ M, create_matrix s train = .ok M ∧
      M.rows = s.users.length ∧
      M.cols = s.items.length ∧
      (∀ u ∈ train.users, ∀ p ∈ train.feedback u,
        M.entry (ru u) (ri p.1) = p.2) ∧
      (∀ r c, (∀ u ∈ train.users, ∀ p ∈ train.feedback u,
        ¬(ru u = r ∧ ri p.1 = c)) → M.entry r c = 0) ∧
      sumMat M =
        (train.users.map (fun u => ((train.feedback u).map (fun p => p.2)).sum)).sum := by
  have hmemtrip : ∀ t ∈ triples train,
      t.1 ∈ train.users ∧ (t.2.1, t.2.2) ∈ train.feedback t.1 ∧ t.2.1 ∈ train.items := by
    intro t ht
    rcases mem_triples.mp ht with ⟨h1, h2⟩
    exact ⟨h1, h2, hitems t.1 h1 (t.2.1, t.2.2) h2⟩
  have htripnd : (triples train).Nodup := by
    unfold triples
    rw [List.nodup_flatMap]
    constructor
    · intro u hu
      have hfc : (train.feedback u).Nodup := List.Nodup.of_map _ (hkeys u hu)
      refine List.Nodup.map ?_ hfc
      intro p q hpq
      obtain ⟨p1, p2⟩ := p
      obtain ⟨q1, q2⟩ := q
      simp only [Prod.mk.injEq] at hpq
      simp [hpq.2.1, hpq.2.2]
    · refine List.Pairwise.imp ?_ hnu
      intro a b hab t hta htb
      rcases List.mem_map.mp hta with ⟨p, _, hpa⟩
      rcases List.mem_map.mp htb with ⟨q, _, hqb⟩
      have h1 : t.1 = a := by rw [← hpa]
      have h2 : t.1 = b := by rw [← hqb]
      exact hab (h1 ▸ h2)
  have hcellsnd :
      (((triples train).map (fun t => (ru t.1, ri t.2.1, t.2.2))).map
        (fun rt => (rt.1, rt.2.1))).Nodup := by
    rw [List.map_map]
    refine List.Nodup.map_on ?_ htripnd
    intro t1 ht1 t2 ht2 heq
    obtain ⟨hu1, hp1, hi1⟩ := hmemtrip t1 ht1
    obtain ⟨hu2, hp2, hi2⟩ := hmemtrip t2 ht2
    simp only [Function.comp, Prod.mk.injEq] at heq
    have he1 : t1.1 = t2.1 := hinjU _ hu1 _ hu2 heq.1
    have he2 : t1.2.1 = t2.2.1 := hinjI _ hi1 _ hi2 heq.2
    have hp2b : (t2.2.1, t2.2.2) ∈ train.feedback t1.1 := by rw [he1]; exact hp2
    have hpair : (t1.2.1, t1.2.2) = (t2.2.1, t2.2.2) :=
      List.inj_on_of_nodup_map (hkeys t1.1 hu1) hp1 hp2b (by simpa using he2)
    have hv : t1.2.2 = t2.2.2 := congrArg Prod.snd hpair
    obtain ⟨a1, b1, v1⟩ := t1
    obtain ⟨a2, b2, v2⟩ := t2
    simp only at he1 he2 hv
    rw [he1, he2, hv]
  have hforall2 : List.Forall₂ (fun (t : α × β × ℚ) (rt : ℕ × ℕ × ℚ) =>
      dget s.user_to_user_id t.1 = some rt.1 ∧
      dget s.item_to_item_id t.2.1 = some rt.2.1 ∧ t.2.2 = rt.2.2)
      (triples train) ((triples train).map (fun t => (ru t.1, ri t.2.1, t.2.2))) := by
    rw [List.forall₂_map_right_iff, List.forall₂_same]
    intro t ht
    obtain ⟨hu, _, hi⟩ := hmemtrip t ht
    exact ⟨(hruU t.1 hu).1, (hriI t.2.1 hi).1, rfl⟩
  have hok : create_matrix s train = .ok
      (applyCells ((triples train).map (fun t => (ru t.1, ri t.2.1, t.2.2)))
        { rows := s.users.length, cols := s.items.length, entry := fun _ _ => 0 }) :=
    fillCells_resolved hforall2 _
  refine ⟨_, hok, (applyCells_shape _ _).1, (applyCells_shape _ _).2, ?_, ?_, ?_⟩
  · intro u hu p hp
    have ht : (u, p.1, p.2) ∈ triples train := by
      refine mem_triples.mpr ⟨hu, ?_⟩
      simpa using hp
    have hmem : (ru u, ri p.1, p.2) ∈
        (triples train).map (fun t => (ru t.1, ri t.2.1, t.2.2)) := by
      have := List.mem_map_of_mem (fun t : α × β × ℚ => (ru t.1, ri t.2.1, t.2.2)) ht
      simpa using this
    exact applyCells_written hcellsnd (ru u, ri p.1, p.2) hmem _
  · intro r c hno
    refine applyCells_untouched ?_ _
    intro rt hrt hc
    rcases List.mem_map.mp hrt with ⟨t, ht, rfl⟩
    obtain ⟨hu, hp, hi⟩ := hmemtrip t ht
    exact hno t.1 hu (t.2.1, t.2.2) hp ⟨hc.1, hc.2⟩
  · have hbounds : ∀ rt ∈ (triples train).map (fun t => (ru t.1, ri t.2.1, t.2.2)),
        rt.1 < s.users.length ∧ rt.2.1 < s.items.length := by
      intro rt hrt
      rcases List.mem_map.mp hrt with ⟨t, ht, rfl⟩
      obtain ⟨hu, _, hi⟩ := hmemtrip t ht
      exact ⟨(hruU t.1 hu).2, (hriI t.2.1 hi).2⟩
    have hsum := applyCells_sum hcellsnd
      { rows := s.users.length, cols := s.items.length, entry := fun _ _ => 0 }
      hbounds (fun _ _ => rfl)
    rw [hsum]
    have h1 : sumMat
        { rows := s.users.length, cols := s.items.length, entry := fun _ _ => 0 } = 0 := by
      simp [sumMat]
    rw [h1, zero_add, List.map_map]
    show ((triples train).map (fun t => t.2.2)).sum = _
    unfold triples
    rw [List.map_flatMap, sum_flatMap_rat]
    congr 1
    refine map_congr_mem (fun u _ => ?_)
    rw [List.map_map]
    rfl

/-- C3 — After `create_matrix` on a loaded train set: the matrix has shape
`(universe users × universe items)`, cell `(user_to_user_id[u], item_to_item_id[i])`
holds the feedback value of every `(u, i)` pair present in the train feedback
structure, every cell not covered by any interaction is exactly `0`, and the sum of
all entries equals the sum of the feedback values (the per-user feedback
dictionaries cannot hold duplicate `(u, i)` pairs). -/
theorem create_matrix_populates {α β : Type} [LinearOrder α] [LinearOrder β]
    (train : DataSet α β) (test : Option (DataSet α β))
    (hnu : train.users.Nodup) (hni : train.items.Nodup)
    (hkeys : ∀ u ∈ train.users, ((train.feedback u).map (fun p => p.1)).Nodup)
    (hitems : ∀ u ∈ train.users, ∀ p ∈ train.feedback u, p.1 ∈ train.items) :
    ∃ M, create_matrix (read_data_sets (freshState : RState α β) train test) train = .ok M ∧
      M.rows = (read_data_sets (freshState : RState α β) train test).users.length ∧
      M.cols = (read_data_sets (freshState : RState α β) train test).items.length ∧
      (∀ u ∈ train.users, ∀ p ∈ train.feedback u, ∃ r c,
        dget (read_data_sets (freshState : RState α β) train test).user_to_user_id u =
          some r ∧
        dget (read_data_sets (freshState : RState α β) train test).item_to_item_id p.1 =
          some c ∧
        M.entry r c = p.2) ∧
      (∀ r c, (∀ u ∈ train.users, ∀ p ∈ train.feedback u,
        ¬(dget (read_data_sets (freshState : RState α β) train test).user_to_user_id u =
            some r ∧
          dget (read_data_sets (freshState : RState α β) train test).item_to_item_id p.1 =
            some c)) →
        M.entry r c = 0) ∧
      sumMat M =
        (train.users.map (fun u => ((train.feedback u).map (fun p => p.2)).sum)).sum := by
  have hUnd : (universeUsers train test).Nodup := universeUsers_nodup hnu
  have hInd : (universeItems train test).Nodup := universeItems_nodup hni
  have hfactU : ∀ u ∈ train.users, ∃ k, ∃ hk : k < (universeUsers train test).length,
      dget (read_data_sets (freshState : RState α β) train test).user_to_user_id u =
        some k ∧
      (universeUsers train test).get ⟨k, hk⟩ = u := by
    intro u hu
    have humem : u ∈ universeUsers train test := mem_universeUsers.mpr (Or.inl hu)
    rcases List.mem_iff_get.mp humem with ⟨⟨k, hk⟩, hget⟩
    refine ⟨k, hk, ?_, hget⟩
    have h := read_data_sets_fwd_user (freshState : RState α β) train test hUnd k hk
    rw [hget] at h
    exact h
  have hfactI : ∀ i ∈ train.items, ∃ k, ∃ hk : k < (universeItems train test).length,
      dget (read_data_sets (freshState : RState α β) train test).item_to_item_id i =
        some k ∧
      (universeItems train test).get ⟨k, hk⟩ = i := by
    intro i hi
    have himem : i ∈ universeItems train test := mem_universeItems.mpr (Or.inl hi)
    rcases List.mem_iff_get.mp himem with ⟨⟨k, hk⟩, hget⟩
    refine ⟨k, hk, ?_, hget⟩
    have h := read_data_sets_fwd_item (freshState : RState α β) train test hInd k hk
    rw [hget] at h
    exact h
  have hruU : ∀ u ∈ train.users,
      dget (read_data_sets (freshState : RState α β) train test).user_to_user_id u =
        some ((dget (read_data_sets (freshState : RState α β) train test).user_to_user_id
          u).getD 0) ∧
      (dget (read_data_sets (freshState : RState α β) train test).user_to_user_id u).getD 0 <
        (read_data_sets (freshState : RState α β) train test).users.length := by
    intro u hu
    rcases hfactU u hu with ⟨k, hk, hd, _⟩
    rw [hd]
    exact ⟨rfl, hk⟩
  have hriI : ∀ i ∈ train.items,
      dget (read_data_sets (freshState : RState α β) train test).item_to_item_id i =
        some ((dget (read_data_sets (freshState : RState α β) train test).item_to_item_id
          i).getD 0) ∧
      (dget (read_data_sets (freshState : RState α β) train test).item_to_item_id i).getD 0 <
        (read_data_sets (freshState : RState α β) train test).items.length := by
    intro i hi
    rcases hfactI i hi with ⟨k, hk, hd, _⟩
    rw [hd]
    exact ⟨rfl, hk⟩
  have hinjU : ∀ u1 ∈ train.users, ∀ u2 ∈ train.users,
      (dget (read_data_sets (freshState : RState α β) train test).user_to_user_id u1).getD 0 =
      (dget (read_data_sets (freshState : RState α β) train test).user_to_user_id u2).getD 0 →
      u1 = u2 := by
    intro u1 h1 u2 h2 heq
    rcases hfactU u1 h1 with ⟨k1, hk1, hd1, hg1⟩
    rcases hfactU u2 h2 with ⟨k2, hk2, hd2, hg2⟩
    rw [hd1, hd2] at heq
    have hkk : k1 = k2 := heq
    subst hkk
    rw [← hg1, ← hg2]
  have hinjI : ∀ i1 ∈ train.items, ∀ i2 ∈ train.items,
      (dget (read_data_sets (freshState : RState α β) train test).item_to_item_id i1).getD 0 =
      (dget (read_data_sets (freshState : RState α β) train test).item_to_item_id i2).getD 0 →
      i1 = i2 := by
    intro i1 h1 i2 h2 heq
    rcases hfactI i1 h1 with ⟨k1, hk1, hd1, hg1⟩
    rcases hfactI i2 h2 with ⟨k2, hk2, hd2, hg2⟩
    rw [hd1, hd2] at heq
    have hkk : k1 = k2 := heq
    subst hkk
    rw [← hg1, ← hg2]
  obtain ⟨M, hok, h1, h2, h3, h4, h5⟩ :=
    create_matrix_spec_aux (read_data_sets (freshState : RState α β) train test) train
      (fun u => (dget (read_data_sets (freshState : RState α β) train
        test).user_to_user_id u).getD 0)
      (fun i => (dget (read_data_sets (freshState : RState α β) train
        test).item_to_item_id i).getD 0)
      hruU hriI hinjU hinjI hnu hkeys hitems
  refine ⟨M, hok, h1, h2, ?_, ?_, h5⟩
  · intro u hu p hp
    exact ⟨_, _, (hruU u hu).1, (hriI p.1 (hitems u hu p hp)).1, h3 u hu p hp⟩
  · intro r c hno
    refine h4 r c ?_
    intro u hu p hp hc
    refine hno u hu p hp ⟨?_, ?_⟩
    · rw [← hc.1]
      exact (hruU u hu).1
    · rw [← hc.2]
      exact (hriI p.1 (hitems u hu p hp)).1

/-- Witness for C3 at a concrete input (the example train set, no test source):
the universe is `users = [1, 2]`, `items = [10, 20]` and the matrix is
`[[5, 3], [4, 0]]` with sum `12`. -/
theorem create_matrix_populates_witness :
    ∃ M, create_matrix (read_data_sets (freshState : RState ℕ ℕ) trainDS none) trainDS =
        .ok M ∧
      M.rows = (read_data_sets (freshState : RState ℕ ℕ) trainDS none).users.length ∧
      M.cols = (read_data_sets (freshState : RState ℕ ℕ) trainDS none).items.length ∧
      (∀ u ∈ trainDS.users, ∀ p ∈ trainDS.feedback u, ∃ r c,
        dget (read_data_sets (freshState : RState ℕ ℕ) trainDS none).user_to_user_id u =
          some r ∧
        dget (read_data_sets (freshState : RState ℕ ℕ) trainDS none).item_to_item_id p.1 =
          some c ∧
        M.entry r c = p.2) ∧
      (∀ r c, (∀ u ∈ trainDS.users, ∀ p ∈ trainDS.feedback u,
        ¬(dget (read_data_sets (freshState : RState ℕ ℕ) trainDS none).user_to_user_id u =
            some r ∧
          dget (read_data_sets (freshState : RState ℕ ℕ) trainDS none).item_to_item_id p.1 =
            some c)) →
        M.entry r c = 0) ∧
      sumMat M =
        (trainDS.users.map (fun u => ((trainDS.feedback u).map (fun p => p.2)).sum)).sum :=
  create_matrix_populates trainDS none (by decide) (by decide) (by decide) (by decide)

theorem mem_entriesList_iff {n : ℕ} {D : ℕ → ℕ → FVal} {x : FVal} :
    x ∈ entriesList n D ↔ ∃ i j, i < n ∧ j < n ∧ x = D i j := by
  unfold entriesList
  constructor
  · intro h
    rcases List.mem_flatMap.mp h with ⟨i, hi, hmem⟩
    rcases List.mem_map.mp hmem with ⟨j, hj, hx⟩
    exact ⟨i, j, List.mem_range.mp hi, List.mem_range.mp hj, hx.symm⟩
  · intro ⟨i, j, hi, hj, hx⟩
    exact List.mem_flatMap.mpr ⟨i, List.mem_range.mpr hi,
      List.mem_map.mpr ⟨j, List.mem_range.mpr hj, hx.symm⟩⟩

/-- C10 (amended) — the normalizer is computed after NaN remediation, so the
substituted `1.0` values participate in the maximum: whenever at least one distance
is NaN and every defined distance lies in `[0, 1)`, the normalizer is exactly `1.0`
rather than the largest defined distance `m`; and for every pair with defined
distance `q` this RAISES (or leaves unchanged) the similarity of the pair relative to
the NaN-free normalization: the similarity becomes `1 - q`, which is at least
`(m - q) / m`. -/
theorem nan_remediation_raises_similarity (M : FMatrix) (metric : Metric)
    (transpose : Bool) (m : ℚ)
    (hnan : ∃ i j, i < simDim M transpose ∧ j < simDim M transpose ∧
      distMatrix M metric transpose i j = .nan)
    (hdef : ∀ i j, i < simDim M transpose → j < simDim M transpose →
      distMatrix M metric transpose i j = .nan ∨
      ∃ q, distMatrix M metric transpose i j = .val q ∧ 0 ≤ q ∧ q < 1)
    (hm : nanFreeNormalizer M metric transpose = .val m) (hm0 : 0 < m) :
    normalizer M metric transpose = .val 1 ∧
    ∀ i j, i < simDim M transpose → j < simDim M transpose →
      ∀ q, distMatrix M metric transpose i j = .val q →
        (compute_similarity M metric transpose).entry i j = .val (1 - q) ∧
        nanFreeSim M metric transpose i j = .val ((m - q) / m) ∧
        (m - q) / m ≤ 1 - q := by
  have hRdef : ∀ i j, i < simDim M transpose → j < simDim M transpose →
      ∃ q, remediate (distMatrix M metric transpose) i j = .val q ∧ q ≤ 1 := by
    intro i j hi hj
    rcases hdef i j hi hj with hnn | ⟨q, hq, _, hq1⟩
    · exact ⟨1, by simp [remediate, hnn, FVal.isNan], le_refl 1⟩
    · exact ⟨q, by simp [remediate, hq, FVal.isNan], le_of_lt hq1⟩
  have hnorm : normalizer M metric transpose = .val 1 := by
    unfold normalizer
    refine FVal.listMax_attains ?_ ?_
    · intro x hx
      rcases mem_entriesList_iff.mp hx with ⟨i, j, hi, hj, hx2⟩
      rcases hRdef i j hi hj with ⟨q, hq, hq1⟩
      exact ⟨q, hx2 ▸ hq, hq1⟩
    · rcases hnan with ⟨i, j, hi, hj, hnn⟩
      refine mem_entriesList_iff.mpr ⟨i, j, hi, hj, ?_⟩
      simp [remediate, hnn, FVal.isNan]
  have hm1 : m < 1 := by
    have hmem := FVal.listMax_eq_val_mem hm
    rcases List.mem_filter.mp hmem with ⟨hmem2, hnn2⟩
    rcases mem_entriesList_iff.mp hmem2 with ⟨i, j, hi, hj, hx⟩
    rcases hdef i j hi hj with hd | ⟨q, hd, _, hq1⟩
    · rw [hd] at hx
      exact absurd hx (by simp)
    · rw [hd] at hx
      have : m = q := by injection hx
      rw [this]
      exact hq1
  refine ⟨hnorm, ?_⟩
  intro i j hi hj q hD
  rcases hdef i j hi hj with hd | ⟨q2, hd, hq0, hq1⟩
  · rw [hD] at hd
    exact absurd hd (by simp)
  · rw [hD] at hd
    have hqq : q = q2 := by injection hd
    subst hqq
    have hR : remediate (distMatrix M metric transpose) i j = .val q := by
      simp [remediate, hD, FVal.isNan]
    refine ⟨?_, ?_, ?_⟩
    · show FVal.div
        (FVal.sub (normalizer M metric transpose)
          (remediate (distMatrix M metric transpose) i j))
        (normalizer M metric transpose) = .val (1 - q)
      rw [hnorm, hR]
      show FVal.div (.val (1 - q)) (.val 1) = .val (1 - q)
      simp [FVal.div]
    · unfold nanFreeSim
      rw [hm, hD]
      show FVal.div (.val (m - q)) (.val m) = .val ((m - q) / m)
      simp [FVal.div, ne_of_gt hm0]
    · rw [div_le_iff₀ hm0]
      nlinarith [mul_nonneg hq0 (by linarith : (0:ℚ) ≤ 1 - m)]

theorem distMatrix_diag (M : FMatrix) (metric : Metric) (transpose : Bool) (i : ℕ) :
    distMatrix M metric transpose i i = .val 0 := by
  simp [distMatrix, distEntry]

theorem identRowsM_rowVec (i : ℕ) : rowVec identRowsM i = [1, 0] := by
  simp [rowVec, identRowsM, List.range_succ]

theorem sqeuclidean_identRows : sqeuclidean [(1 : ℚ), 0] [1, 0] = .val 0 := by
  show FVal.val ((([((1 : ℚ), (1 : ℚ)), (0, 0)]).map fun p => (p.1 - p.2) ^ 2).sum) =
    FVal.val 0
  norm_num

theorem identRowsM_dist (i j : ℕ) :
    distMatrix identRowsM sqeuclidean false i j = .val 0 := by
  unfold distMatrix distEntry
  show (if i = j then FVal.val 0
    else if i < j then sqeuclidean (rowVec identRowsM i) (rowVec identRowsM j)
    else sqeuclidean (rowVec identRowsM j) (rowVec identRowsM i)) = .val 0
  by_cases hij : i = j
  · simp [hij]
  · rcases Nat.lt_or_ge i j with h | h
    · rw [if_neg hij, if_pos h, identRowsM_rowVec, identRowsM_rowVec]
      exact sqeuclidean_identRows
    · rw [if_neg hij, if_neg (Nat.not_lt.mpr h), identRowsM_rowVec, identRowsM_rowVec]
      exact sqeuclidean_identRows

theorem identRowsM_rem (i j : ℕ) :
    remediate (distMatrix identRowsM sqeuclidean false) i j = .val 0 := by
  simp [remediate, identRowsM_dist, FVal.isNan]

theorem identRowsM_normalizer : normalizer identRowsM sqeuclidean false = .val 0 := by
  unfold normalizer
  show FVal.listMax
    (entriesList 2 (remediate (distMatrix identRowsM sqeuclidean false))) = .val 0
  have hl : entriesList 2 (remediate (distMatrix identRowsM sqeuclidean false)) =
      [.val 0, .val 0, .val 0, .val 0] := by
    simp [entriesList, List.range_succ, identRowsM_rem]
  rw [hl]
  simp [FVal.listMax, FVal.fmax]

/-- C2 fails on the code at the all-identical-rows boundary: every pairwise
distance is `0`, the global maximum is `0`, and the unguarded transform
`(0 - 0) / 0` produces NaN in EVERY entry — not a matrix of values in `[0, 1]`
with off-diagonal `1.0` (and contrary to the source comment
"Values in matrix range from 0-1"). -/
theorem compute_similarity_identical_rows_all_nan :
    (compute_similarity identRowsM sqeuclidean false).dim = 2 ∧
    (compute_similarity identRowsM sqeuclidean false).entry 0 0 = .nan ∧
    (compute_similarity identRowsM sqeuclidean false).entry 0 1 = .nan ∧
    (compute_similarity identRowsM sqeuclidean false).entry 1 0 = .nan ∧
    (compute_similarity identRowsM sqeuclidean false).entry 1 1 = .nan := by
  have hentry : ∀ i j, (compute_similarity identRowsM sqeuclidean false).entry i j = .nan := by
    intro i j
    show FVal.div
      (FVal.sub (normalizer identRowsM sqeuclidean false)
        (remediate (distMatrix identRowsM sqeuclidean false) i j))
      (normalizer identRowsM sqeuclidean false) = .nan
    rw [identRowsM_normalizer, identRowsM_rem]
    show FVal.div (FVal.val (0 - 0)) (.val 0) = .nan
    norm_num [FVal.div]
  exact ⟨rfl, hentry 0 0, hentry 0 1, hentry 1 0, hentry 1 1⟩

theorem nanColM_rowVec0 : rowVec nanColM 0 = [1] := by
  simp [rowVec, nanColM, List.range_succ]

theorem nanColM_rowVec1 : rowVec nanColM 1 = [0] := by
  simp [rowVec, nanColM, List.range_succ]

theorem nanColM_rowVec2 : rowVec nanColM 2 = [0] := by
  simp [rowVec, nanColM, List.range_succ]

theorem nanOnZeroRowsMetric_10 : nanOnZeroRowsMetric [(1 : ℚ)] [0] = .val (1 / 2) := by
  unfold nanOnZeroRowsMetric
  rw [if_neg (by norm_num)]
  norm_num

theorem nanOnZeroRowsMetric_00 : nanOnZeroRowsMetric [(0 : ℚ)] [0] = .nan := by
  unfold nanOnZeroRowsMetric
  rw [if_pos (by norm_num)]

theorem nanColM_dist01 :
    distMatrix nanColM nanOnZeroRowsMetric false 0 1 = .val (1 / 2) := by
  show nanOnZeroRowsMetric (rowVec nanColM 0) (rowVec nanColM 1) = .val (1 / 2)
  rw [nanColM_rowVec0, nanColM_rowVec1]
  exact nanOnZeroRowsMetric_10

theorem nanColM_dist02 :
    distMatrix nanColM nanOnZeroRowsMetric false 0 2 = .val (1 / 2) := by
  show nanOnZeroRowsMetric (rowVec nanColM 0) (rowVec nanColM 2) = .val (1 / 2)
  rw [nanColM_rowVec0, nanColM_rowVec2]
  exact nanOnZeroRowsMetric_10

theorem nanColM_dist10 :
    distMatrix nanColM nanOnZeroRowsMetric false 1 0 = .val (1 / 2) := by
  show nanOnZeroRowsMetric (rowVec nanColM 0) (rowVec nanColM 1) = .val (1 / 2)
  rw [nanColM_rowVec0, nanColM_rowVec1]
  exact nanOnZeroRowsMetric_10

theorem nanColM_dist20 :
    distMatrix nanColM nanOnZeroRowsMetric false 2 0 = .val (1 / 2) := by
  show nanOnZeroRowsMetric (rowVec nanColM 0) (rowVec nanColM 2) = .val (1 / 2)
  rw [nanColM_rowVec0, nanColM_rowVec2]
  exact nanOnZeroRowsMetric_10

theorem nanColM_dist12 :
    distMatrix nanColM nanOnZeroRowsMetric false 1 2 = .nan := by
  show nanOnZeroRowsMetric (rowVec nanColM 1) (rowVec nanColM 2) = .nan
  rw [nanColM_rowVec1, nanColM_rowVec2]
  exact nanOnZeroRowsMetric_00

theorem nanColM_dist21 :
    distMatrix nanColM nanOnZeroRowsMetric false 2 1 = .nan := by
  show nanOnZeroRowsMetric (rowVec nanColM 1) (rowVec nanColM 2) = .nan
  rw [nanColM_rowVec1, nanColM_rowVec2]
  exact nanOnZeroRowsMetric_00

theorem nanColM_nanFreeNormalizer :
    nanFreeNormalizer nanColM nanOnZeroRowsMetric false = .val (1 / 2) := by
  unfold nanFreeNormalizer
  have hl : entriesList (simDim nanColM false) (distMatrix nanColM nanOnZeroRowsMetric false) =
      [.val 0, .val (1 / 2), .val (1 / 2),
       .val (1 / 2), .val 0, .nan,
       .val (1 / 2), .nan, .val 0] := by
    show entriesList 3 (distMatrix nanColM nanOnZeroRowsMetric false) = _
    simp [entriesList, List.range_succ, distMatrix_diag, nanColM_dist01, nanColM_dist02,
      nanColM_dist10, nanColM_dist12, nanColM_dist20, nanColM_dist21]
  rw [hl]
  show FVal.listMax
    [.val 0, .val (1 / 2), .val (1 / 2), .val (1 / 2), .val 0, .val (1 / 2), .val 0] =
    .val (1 / 2)
  simp only [FVal.listMax, List.foldl_cons, List.foldl_nil, FVal.fmax]
  norm_num [max_def]

theorem nanColM_normalizer :
    normalizer nanColM nanOnZeroRowsMetric false = .val 1 := by
  unfold normalizer
  have hl : entriesList (simDim nanColM false)
      (remediate (distMatrix nanColM nanOnZeroRowsMetric false)) =
      [.val 0, .val (1 / 2), .val (1 / 2),
       .val (1 / 2), .val 0, .val 1,
       .val (1 / 2), .val 1, .val 0] := by
    show entriesList 3 (remediate (distMatrix nanColM nanOnZeroRowsMetric false)) = _
    simp [entriesList, List.range_succ, remediate, distMatrix_diag, nanColM_dist01,
      nanColM_dist02, nanColM_dist10, nanColM_dist12, nanColM_dist20, nanColM_dist21,
      FVal.isNan]
  rw [hl]
  simp only [FVal.listMax, List.foldl_cons, List.foldl_nil, FVal.fmax]
  norm_num [max_def]

theorem nanColM_entry01 :
    (compute_similarity nanColM nanOnZeroRowsMetric false).entry 0 1 = .val (1 / 2) := by
  show FVal.div
    (FVal.sub (normalizer nanColM nanOnZeroRowsMetric false)
      (remediate (distMatrix nanColM nanOnZeroRowsMetric false) 0 1))
    (normalizer nanColM nanOnZeroRowsMetric false) = .val (1 / 2)
  have hr : remediate (distMatrix nanColM nanOnZeroRowsMetric false) 0 1 = .val (1 / 2) := by
    simp [remediate, nanColM_dist01, FVal.isNan]
  rw [nanColM_normalizer, hr]
  show FVal.div (FVal.val (1 - 1 / 2)) (.val 1) = .val (1 / 2)
  norm_num [FVal.div]

theorem nanColM_nanFreeSim01 :
    nanFreeSim nanColM nanOnZeroRowsMetric false 0 1 = .val 0 := by
  unfold nanFreeSim
  rw [nanColM_nanFreeNormalizer, nanColM_dist01]
  show FVal.div (FVal.val (1 / 2 - 1 / 2)) (.val (1 / 2)) = .val 0
  norm_num [FVal.div]

/-- C10 counterexample — the final consequence of the claim is backwards: with one NaN
pair and defined distances `1/2`, the normalizer becomes `1.0` and the `(0,1)`
similarity of the pair `(0,1)` is `1/2`, STRICTLY HIGHER than the `0` it would get under the
NaN-free normalization (normalizer = largest defined distance `1/2`); the
substituted NaNs raise, not lower, the similarities of the other pairs. -/
theorem nan_remediation_lowers_counterexample :
    (compute_similarity nanColM nanOnZeroRowsMetric false).entry 0 1 = .val (1 / 2) ∧
    nanFreeSim nanColM nanOnZeroRowsMetric false 0 1 = .val 0 ∧
    ¬((1 : ℚ) / 2 ≤ 0) :=
  ⟨nanColM_entry01, nanColM_nanFreeSim01, by norm_num⟩

/-- Witness for the amended C10 at the concrete input: the normalizer is `1.0`, and
the pair `(0, 1)` with defined distance `1/2` gets similarity `1 - 1/2`, at least
its NaN-free similarity `(1/2 - 1/2) / (1/2)`. -/
theorem nan_remediation_raises_similarity_witness :
    normalizer nanColM nanOnZeroRowsMetric false = .val 1 ∧
    (compute_similarity nanColM nanOnZeroRowsMetric false).entry 0 1 = .val (1 - 1 / 2) ∧
    nanFreeSim nanColM nanOnZeroRowsMetric false 0 1 = .val ((1 / 2 - 1 / 2) / (1 / 2)) ∧
    ((1 : ℚ) / 2 - 1 / 2) / (1 / 2) ≤ 1 - 1 / 2 := by
  have hdef : ∀ i j, i < simDim nanColM false → j < simDim nanColM false →
      distMatrix nanColM nanOnZeroRowsMetric false i j = .nan ∨
      ∃ q, distMatrix nanColM nanOnZeroRowsMetric false i j = .val q ∧ 0 ≤ q ∧ q < 1 := by
    intro i j hi hj
    have hi3 : i < 3 := hi
    have hj3 : j < 3 := hj
    interval_cases i <;> interval_cases j
    · exact Or.inr ⟨0, distMatrix_diag _ _ _ 0, le_refl 0, by norm_num⟩
    · exact Or.inr ⟨1 / 2, nanColM_dist01, by norm_num, by norm_num⟩
    · exact Or.inr ⟨1 / 2, nanColM_dist02, by norm_num, by norm_num⟩
    · exact Or.inr ⟨1 / 2, nanColM_dist10, by norm_num, by norm_num⟩
    · exact Or.inr ⟨0, distMatrix_diag _ _ _ 1, le_refl 0, by norm_num⟩
    · exact Or.inl nanColM_dist12
    · exact Or.inr ⟨1 / 2, nanColM_dist20, by norm_num, by norm_num⟩
    · exact Or.inl nanColM_dist21
    · exact Or.inr ⟨0, distMatrix_diag _ _ _ 2, le_refl 0, by norm_num⟩
  have h := nan_remediation_raises_similarity nanColM nanOnZeroRowsMetric false (1 / 2)
    ⟨1, 2, by norm_num [simDim, nanColM], by norm_num [simDim, nanColM], nanColM_dist12⟩
    hdef nanColM_nanFreeNormalizer (by norm_num)
  rcases h.2 0 1 (by norm_num [simDim, nanColM]) (by norm_num [simDim, nanColM]) (1 / 2)
    nanColM_dist01 with ⟨ha, hb, hc⟩
  exact ⟨h.1, ha, hb, hc⟩

/-- Witness for C1 at a concrete input: the example matrix under the (symmetric)
squared-Euclidean metric, without transpose. -/
theorem compute_similarity_matches_spec_witness :
    (compute_similarity exMatrix sqeuclidean false).dim =
      (specSimilarity exMatrix sqeuclidean false).dim ∧
    ∀ i j, i < simDim exMatrix false → j < simDim exMatrix false →
      (compute_similarity exMatrix sqeuclidean false).entry i j =
      (specSimilarity exMatrix sqeuclidean false).entry i j :=
  compute_similarity_matches_spec exMatrix sqeuclidean false
    (fun _ _ _ _ => sqeuclidean_symm _ _)

end CaseRec
